import Mathlib

/-!
# cnat-client-go: the `At` controller

A shallow embedding of `controller.go` (and of the `At` types of
`pkg/apis/cnat/v1alpha1/types.go`) together with the properties of one
reconcile pass (`syncHandler`), of the Pod event router (`enqueuePod`) and of
the worker step (`processNextItem`).

Conventions of the embedding.

* Every call the controller makes on a collaborator (lister, typed clients,
  work queue, `utilruntime.HandleError`) is recorded, in program order, in a
  list; what the collaborator answers is read from a `World` record, so a
  pass is a pure function of the world it runs against.
* Go strings are Lean strings.  The two separators the program splits on
  (`" "` and `"/"`) are single ASCII bytes, so splitting the bytes and
  splitting the characters agree.
* Instants are integers, nanoseconds on the wall clock; a `time.Duration`
  is a signed 64 bit count of nanoseconds.
* `klog` output is not modelled.
* The work queue is library code; it is modelled from its description in the
  specification, and a run of the workers and event handlers is a list of
  atomic queue operations.
-/

namespace Cnat

/-! ## Go library functions used by the controller -/

namespace strings

/-- Pieces of `s` between the occurrences of the one-character separator
`sep`, on character lists: `strings.Split(s, sep)` always yields one piece
more than there are separators in `s`. -/
def splitChars (sep : Char) : List Char → List (List Char)
  | [] => [[]]
  | c :: cs =>
    if c = sep then [] :: splitChars sep cs
    else
      match splitChars sep cs with
      | [] => [[c]]
      | w :: ws => (c :: w) :: ws

/-- Go `strings.Split(s, sep)` for a separator of one character. -/
def Split (s : String) (sep : Char) : List String :=
  (splitChars sep s.data).map String.mk

/-- Go `unicode.IsSpace`: the white space characters of Unicode. -/
def IsSpace (c : Char) : Bool :=
  c = '\t' || c = '\n' || c = '\x0b' || c = '\x0c' || c = '\r' || c = ' ' ||
  c.val = 0x85 || c.val = 0xA0 || c.val = 0x1680 ||
  (0x2000 ≤ c.val && c.val ≤ 0x200a) ||
  c.val = 0x2028 || c.val = 0x2029 || c.val = 0x202f || c.val = 0x205f ||
  c.val = 0x3000

/-- Maximal runs of non-white-space characters of a character list, in
order (the white-space split, Go `strings.Fields`).  The second argument is
the run being read, `none` between runs. -/
def fieldsChars : List Char → Option (List Char) → List (List Char)
  | [], none => []
  | [], some w => [w.reverse]
  | c :: cs, none =>
    if IsSpace c then fieldsChars cs none else fieldsChars cs (some [c])
  | c :: cs, some w =>
    if IsSpace c then w.reverse :: fieldsChars cs none
    else fieldsChars cs (some (c :: w))

/-- The white-space split of a string: the list, in order, of its maximal
runs of non-white-space characters. -/
def Fields (s : String) : List String :=
  (fieldsChars s.data none).map String.mk

end strings

namespace errors

/-- A Go `error` value as the controller can tell them apart: an API status
error carries a reason (`metav1.StatusReason`), any other error only a
message. -/
inductive GoError where
  | status (reason : String) (message : String)
  | plain (message : String)
  deriving DecidableEq, Repr

/-- Go `errors.IsNotFound`: the error is a status error of reason
`NotFound`. -/
def IsNotFound : GoError → Bool
  | .status reason _ => reason == "NotFound"
  | .plain _ => false

end errors

open errors (GoError)

deriving instance DecidableEq for Except

namespace time

/-- Largest `time.Duration`. -/
def maxDuration : Int := 2 ^ 63 - 1

/-- Smallest `time.Duration`. -/
def minDuration : Int := -(2 ^ 63)

/-- Go `t.Sub(u)` on wall-clock instants: the difference `t - u`, or the
largest (smallest) duration when the difference does not fit a
`time.Duration`. -/
def Sub (t u : Int) : Int :=
  if t - u > maxDuration then maxDuration
  else if t - u < minDuration then minDuration
  else t - u

end time

/-! ## Data model -/

/-- Phase constant of `types.go`. -/
def PhasePending : String := "PENDING"
/-- Phase constant of `types.go`. -/
def PhaseRunning : String := "RUNNING"
/-- Phase constant of `types.go`. -/
def PhaseDone : String := "DONE"

/-- Pod phase constant of `k8s.io/api/core/v1`. -/
def PodFailed : String := "Failed"
/-- Pod phase constant of `k8s.io/api/core/v1`. -/
def PodSucceeded : String := "Succeeded"
/-- Restart policy constant of `k8s.io/api/core/v1`. -/
def RestartPolicyOnFailure : String := "OnFailure"

/-- The fields of `metav1.OwnerReference`. -/
structure OwnerReference where
  APIVersion : String
  Kind : String
  Name : String
  UID : String
  Controller : Option Bool
  BlockOwnerDeletion : Option Bool
  deriving DecidableEq, Repr

/-- The fields of `metav1.ObjectMeta` the controller reads or writes. -/
structure ObjectMeta where
  Name : String
  Namespace : String
  UID : String
  Labels : List (String × String)
  OwnerReferences : List OwnerReference
  deriving DecidableEq, Repr

/-- Type `AtSpec` of `types.go`. -/
structure AtSpec where
  Schedule : String
  Command : String
  deriving DecidableEq, Repr

/-- Type `AtStatus` of `types.go`. -/
structure AtStatus where
  Phase : String
  deriving DecidableEq, Repr

/-- Type `At` of `types.go`; the embedded `ObjectMeta` is the parent structure. -/
structure At extends ObjectMeta where
  Spec : AtSpec
  Status : AtStatus
  deriving DecidableEq, Repr

/-- The fields of `corev1.Container` set by the controller. -/
structure Container where
  Name : String
  Image : String
  Command : List String
  deriving DecidableEq, Repr

/-- The fields of `corev1.PodSpec` set by the controller. -/
structure PodSpec where
  Containers : List Container
  RestartPolicy : String
  deriving DecidableEq, Repr

/-- The fields of `corev1.PodStatus` read by the controller. -/
structure PodStatus where
  Phase : String
  Reason : String
  Message : String
  deriving DecidableEq, Repr

/-- The `corev1.Pod` that runs the command of an `At`. -/
structure Pod extends ObjectMeta where
  Spec : PodSpec
  Status : PodStatus
  deriving DecidableEq, Repr

/-! ## Collaborators -/

/-- A value handed to an event handler, or taken from the work queue, as an
`interface{}`: the dynamic types the controller distinguishes. -/
inductive Obj where
  /-- a `*corev1.Pod` -/
  | pod (p : Pod)
  /-- an `*At` -/
  | atObj (a : At)
  /-- a `cache.DeletedFinalStateUnknown` with fields `Key` and `Obj` -/
  | tombstone (Key : String) (inner : Obj)
  /-- a Go `string` -/
  | str (s : String)
  /-- a value of any other type; `meta` is its object metadata when the
  type has one -/
  | other (meta : Option ObjectMeta)
  deriving DecidableEq, Repr

/-- One call of the controller on a collaborator. -/
inductive Call where
  /-- Call `c.atLister.Ats(ns).Get(name)`, a read of the local cache -/
  | atListerGet (ns name : String)
  /-- Call `c.kubeClientset.CoreV1().Pods(ns).Get(name, …)` -/
  | podsGet (ns name : String)
  /-- Call `c.kubeClientset.CoreV1().Pods(pod.Namespace).Create(pod)` -/
  | podsCreate (pod : Pod)
  /-- Call `c.cnatClientset.CnatV1alpha1().Ats(ns).UpdateStatus(instance)` -/
  | UpdateStatus (a : At)
  /-- Call `utilruntime.HandleError(err)` -/
  | HandleError
  /-- Call `c.workqueue.Add(item)` -/
  | Add (item : Obj)
  /-- Call `c.workqueue.AddAfter(item, d)` -/
  | AddAfter (item : Obj) (d : Int)
  /-- Call `c.workqueue.AddRateLimited(item)` -/
  | AddRateLimited (item : Obj)
  /-- Call `c.workqueue.Forget(item)` -/
  | Forget (item : Obj)
  /-- Call `c.workqueue.Done(item)` -/
  | Done (item : Obj)
  deriving DecidableEq, Repr

/-- The call is one on the work queue. -/
def Call.isQueueCall : Call → Bool
  | .Add _ | .AddAfter _ _ | .AddRateLimited _ | .Forget _ | .Done _ => true
  | _ => false

/-- The call is a status write of the `At`. -/
def Call.isUpdateStatus : Call → Bool
  | .UpdateStatus _ => true
  | _ => false

/-- The call is a Pod existence check. -/
def Call.isPodsGet : Call → Bool
  | .podsGet _ _ => true
  | _ => false

/-- The call is a Pod creation. -/
def Call.isPodsCreate : Call → Bool
  | .podsCreate _ => true
  | _ => false

/-- What the collaborators answer during one pass.  `podsGet` is the Go pair
`(*Pod, error)` as returned: the controller reads the pointer also when the
error is set, so both components are kept (`none` is the nil pointer).
`ParseInLocation` stands for
`time.ParseInLocation("2006-01-02 15:04:05", ·, time.Local)` and
`SchemeGroupVersion` for `cnatv1alpha1.SchemeGroupVersion.String()`, which
is declared in a file of the package that is not part of the sources. -/
structure World where
  atLister : String → String → Except GoError At
  now : Int
  ParseInLocation : String → Except GoError Int
  podsGet : String → String → Option Pod × Option GoError
  podsCreate : Pod → Option GoError
  UpdateStatus : At → Option GoError
  SchemeGroupVersion : String

/-- How a Go function of type `(time.Duration, error)` ends. -/
inductive Outcome where
  /-- it returns `(when, err)`; `none` is the nil error -/
  | ret (when : Int) (err : Option GoError)
  /-- it panics (nil pointer dereference) -/
  | panic
  deriving DecidableEq, Repr

/-- The calls of a run, in program order, and how it ends. -/
structure Pass where
  calls : List Call
  out : Outcome
  deriving DecidableEq, Repr

/-! ## Library helpers on objects -/

namespace cache

/-- Go `cache.SplitMetaNamespaceKey`: `name` or `namespace/name`. -/
def SplitMetaNamespaceKey (key : String) : Except GoError (String × String) :=
  match strings.Split key '/' with
  | [name] => .ok ("", name)
  | [ns, name] => .ok (ns, name)
  | _ => .error (.plain ("unexpected key format: " ++ key))

/-- Go `meta.Accessor`: the object metadata of a value, when its type has
one. -/
def Accessor : Obj → Option ObjectMeta
  | .pod p => some p.toObjectMeta
  | .atObj a => some a.toObjectMeta
  | .tombstone _ _ => none
  | .str _ => none
  | .other meta => meta

/-- Go `cache.MetaNamespaceKeyFunc`. -/
def MetaNamespaceKeyFunc (obj : Obj) : Except GoError String :=
  match Accessor obj with
  | none => .error (.plain "object has no meta")
  | some meta =>
    if meta.Namespace.length > 0 then .ok (meta.Namespace ++ "/" ++ meta.Name)
    else .ok meta.Name

end cache

namespace metav1

/-- Go `metav1.NewControllerRef(owner, gvk)`; `apiVersion` is
`gvk.GroupVersion().String()` and `kind` is `gvk.Kind`. -/
def NewControllerRef (owner : ObjectMeta) (apiVersion kind : String) : OwnerReference :=
  { APIVersion := apiVersion
    Kind := kind
    Name := owner.Name
    UID := owner.UID
    BlockOwnerDeletion := some true
    Controller := some true }

/-- Go `metav1.GetControllerOf`: the first owner reference whose
`Controller` flag is set and true. -/
def GetControllerOf (controllee : ObjectMeta) : Option OwnerReference :=
  controllee.OwnerReferences.find? (fun ref => ref.Controller == some true)

end metav1

/-! ## The controller -/

/-- Function `newPodForCR` of `controller.go`. -/
def newPodForCR (cr : At) : Pod :=
  { Name := cr.Name ++ "-pod"
    Namespace := cr.Namespace
    UID := ""
    Labels := [("app", cr.Name)]
    OwnerReferences := []
    Spec :=
      { Containers :=
          [{ Name := "busybox"
             Image := "busybox"
             Command := strings.Split cr.Spec.Command ' ' }]
        RestartPolicy := RestartPolicyOnFailure }
    Status := { Phase := "", Reason := "", Message := "" } }

/-- Function `timeUntilSchedule` of `controller.go`: the clock is read, the schedule
parsed, and the signed wait returned. -/
def timeUntilSchedule (w : World) (schedule : String) : Except GoError Int :=
  match w.ParseInLocation schedule with
  | .error err => .error err
  | .ok s => .ok (time.Sub s w.now)

/-- The Pod that the `RUNNING` case of `syncHandler` looks up and creates:
`newPodForCR(instance)` with the controller reference to the instance
appended to its owner references. -/
def ownedPod (w : World) (inst : At) : Pod :=
  let pod := newPodForCR inst
  let owner := metav1.NewControllerRef inst.toObjectMeta w.SchemeGroupVersion "At"
  { pod with OwnerReferences := pod.OwnerReferences ++ [owner] }

/-- The end of `syncHandler` (after the `switch`): the status is written
only when the instance differs from the object read at the start. -/
def updateIfChanged (w : World) (original inst : At) (calls : List Call) : Pass :=
  if original ≠ inst then
    match w.UpdateStatus inst with
    | some err => ⟨calls ++ [.UpdateStatus inst], .ret 0 (some err)⟩
    | none => ⟨calls ++ [.UpdateStatus inst], .ret 0 none⟩
  else ⟨calls, .ret 0 none⟩

/-- Function `Controller.syncHandler` of `controller.go`. -/
def syncHandler (w : World) (key : String) : Pass :=
  match cache.SplitMetaNamespaceKey key with
  | .error _ => ⟨[.HandleError], .ret 0 none⟩
  | .ok (ns, name) =>
    match w.atLister ns name with
    | .error err =>
      if errors.IsNotFound err then ⟨[.atListerGet ns name, .HandleError], .ret 0 none⟩
      else ⟨[.atListerGet ns name], .ret 0 (some err)⟩
    | .ok original =>
      let inst : At :=
        if original.Status.Phase = "" then { original with Status := { Phase := PhasePending } }
        else original
      if inst.Status.Phase = PhasePending then
        match timeUntilSchedule w inst.Spec.Schedule with
        | .error err => ⟨[.atListerGet ns name, .HandleError], .ret 0 (some err)⟩
        | .ok d =>
          if d > 0 then ⟨[.atListerGet ns name], .ret d none⟩
          else
            updateIfChanged w original { inst with Status := { Phase := PhaseRunning } }
              [.atListerGet ns name]
      else if inst.Status.Phase = PhaseRunning then
        let pod := ownedPod w inst
        match w.podsGet pod.Namespace pod.Name with
        | (found, err) =>
          if err.any errors.IsNotFound then
            match w.podsCreate pod with
            | some err =>
              ⟨[.atListerGet ns name, .podsGet pod.Namespace pod.Name, .podsCreate pod],
                .ret 0 (some err)⟩
            | none =>
              updateIfChanged w original inst
                [.atListerGet ns name, .podsGet pod.Namespace pod.Name, .podsCreate pod]
          else
            match found with
            | none => ⟨[.atListerGet ns name, .podsGet pod.Namespace pod.Name], .panic⟩
            | some found =>
              if found.Status.Phase = PodFailed ∨ found.Status.Phase = PodSucceeded then
                updateIfChanged w original { inst with Status := { Phase := PhaseDone } }
                  [.atListerGet ns name, .podsGet pod.Namespace pod.Name]
              else ⟨[.atListerGet ns name, .podsGet pod.Namespace pod.Name], .ret 0 none⟩
      else if inst.Status.Phase = PhaseDone then ⟨[.atListerGet ns name], .ret 0 none⟩
      else ⟨[.atListerGet ns name], .ret 0 none⟩

/-- The calls of `n` successive passes of `syncHandler` on `key`, each
against the same observations `w`. -/
def repeatSync (w : World) (key : String) : Nat → List Call
  | 0 => []
  | n + 1 => (syncHandler w key).calls ++ repeatSync w key n

/-- Function `Controller.enqueueAt` of `controller.go`. -/
def enqueueAt (obj : Obj) : List Call :=
  match cache.MetaNamespaceKeyFunc obj with
  | .error _ => [.HandleError]
  | .ok key => [.Add (.str key)]

/-- The owner resolution of `Controller.enqueuePod`, once the Pod is
recovered from the notification. -/
def enqueueOwner (w : World) (pod : Pod) : List Call :=
  match metav1.GetControllerOf pod.toObjectMeta with
  | none => []
  | some ownerRef =>
    if ownerRef.Kind ≠ "At" then []
    else
      match w.atLister pod.Namespace ownerRef.Name with
      | .error _ => [.atListerGet pod.Namespace ownerRef.Name]
      | .ok a => .atListerGet pod.Namespace ownerRef.Name :: enqueueAt (.atObj a)

/-- Function `Controller.enqueuePod` of `controller.go`. -/
def enqueuePod (w : World) (obj : Obj) : List Call :=
  match obj with
  | .pod pod => enqueueOwner w pod
  | .tombstone _ (.pod pod) => enqueueOwner w pod
  | .tombstone _ _ => [.HandleError]
  | _ => [.HandleError]

/-- How `processNextItem` ends: the calls it made, its own and those of the
reconcile pass, and the value returned (`none` when the pass panicked, so
that nothing is returned). -/
structure Step where
  calls : List Call
  result : Option Bool
  deriving DecidableEq, Repr

/-- Function `Controller.processNextItem` of `controller.go`; `obj` and `shutdown`
are what `c.workqueue.Get()` returned. -/
def processNextItem (w : World) (obj : Obj) (shutdown : Bool) : Step :=
  if shutdown then ⟨[], some false⟩
  else
    match obj with
    | .str key =>
      match syncHandler w key with
      | ⟨calls, .ret _ (some _)⟩ =>
        ⟨calls ++ [.AddRateLimited (.str key), .Done obj, .HandleError], some true⟩
      | ⟨calls, .ret when none⟩ =>
        if when ≠ 0 then ⟨calls ++ [.AddAfter (.str key) when, .Done obj], some true⟩
        else ⟨calls ++ [.Forget obj, .Done obj], some true⟩
      | ⟨calls, .panic⟩ => ⟨calls ++ [.Done obj], none⟩
    | _ => ⟨[.Forget obj, .HandleError, .Done obj], some true⟩

/-- A run of characters that is not empty and holds no white space: an
argument as the white-space split produces them. -/
def strings.IsWord (w : List Char) : Prop := w ≠ [] ∧ ∀ c ∈ w, strings.IsSpace c = false

/-! ## The work queue

The controller drives a `workqueue.RateLimitingInterface`; the queue itself
belongs to a library and is described in the specification only (section
4.2).  The model below follows that description.  A run of the worker pool
and of the event handlers is an interleaving of atomic queue operations. -/

namespace workqueue

/-- Modelled from the spec: the work queue, whose implementation is library
code outside the sources.  `queue` is the order in which pending keys are
handed out, `dirty` the pending set, `processing` the keys in flight
(between their `Get` and their `Done`), `timers` the insertions scheduled by
`AddAfter` and `AddRateLimited` whose delay has not elapsed, and `started`
the keys `Get` has handed to a worker so far, that is the invocations of
`syncHandler`, in order. -/
structure WorkQueue where
  queue : List String
  dirty : List String
  processing : List String
  timers : List String
  started : List String
  deriving DecidableEq, Repr

/-- Modelled from the spec: the empty work queue of a controller that has
just been built. -/
def WorkQueue.empty : WorkQueue :=
  { queue := [], dirty := [], processing := [], timers := [], started := [] }

/-- Modelled from the spec: one atomic operation on the work queue.  The
delay of `AddAfter` and the backoff of `AddRateLimited` are not counted: the
moment the delay elapses is an operation of its own, `Elapse`, which an
interleaving may place anywhere after the call. -/
inductive QueueOp where
  /-- Operation `Add(key)` -/
  | Add (key : String)
  /-- Operation `AddAfter(key, delay)` -/
  | AddAfter (key : String)
  /-- Operation `AddRateLimited(key)` -/
  | AddRateLimited (key : String)
  /-- The delay of one scheduled insertion of `key` elapses -/
  | Elapse (key : String)
  /-- Operation `Forget(key)` -/
  | Forget (key : String)
  /-- Operation `Get()` by a worker, which then runs `syncHandler` on the
  key it was handed -/
  | Get
  /-- Operation `Done(key)` by the worker that was handed `key` -/
  | Done (key : String)
  deriving DecidableEq, Repr

/-- Modelled from the spec: `Add(key)`, "insert if not already present in
the pending set; no-op if already pending"; for a key in flight the
insertion is "honored only" at its `Done`, so the key joins the pending set
and not yet the order. -/
def WorkQueue.add (q : WorkQueue) (key : String) : WorkQueue :=
  if key ∈ q.dirty then q
  else if key ∈ q.processing then { q with dirty := key :: q.dirty }
  else { q with dirty := key :: q.dirty, queue := q.queue ++ [key] }

/-- Modelled from the spec: the effect of one operation.  `AddAfter` and
`AddRateLimited` "schedule insertion after delay elapses" and are "not
merged" with other entries of the key; `Elapse` performs one scheduled
insertion; `Forget` clears backoff history only; `Get` hands out the first
pending key, which is then in flight and no longer pending, and blocks (no
effect) on an empty queue; `Done` ends the processing of a key in flight and
honours the insertions received meanwhile, and has no effect for a key that
is not in flight (a worker calls it for the key it was handed only). -/
def WorkQueue.step (q : WorkQueue) : QueueOp → WorkQueue
  | .Add key => q.add key
  | .AddAfter key => { q with timers := key :: q.timers }
  | .AddRateLimited key => { q with timers := key :: q.timers }
  | .Elapse key =>
    if key ∈ q.timers then ({ q with timers := q.timers.erase key }).add key else q
  | .Forget _ => q
  | .Get =>
    match q.queue with
    | [] => q
    | key :: rest =>
      { q with
        queue := rest
        dirty := q.dirty.erase key
        processing := key :: q.processing
        started := q.started ++ [key] }
  | .Done key =>
    if key ∈ q.processing then
      if key ∈ q.dirty then
        { q with processing := q.processing.erase key, queue := q.queue ++ [key] }
      else { q with processing := q.processing.erase key }
    else q

/-- Modelled from the spec: the queue after an interleaving of operations. -/
def WorkQueue.run (q : WorkQueue) : List QueueOp → WorkQueue
  | [] => q
  | op :: ops => (q.step op).run ops

/-- Modelled from the spec: the operation inserts `key` into the pending set
now, as an immediate `Add` or as a scheduled insertion whose delay
elapses. -/
def QueueOp.inserts (key : String) : QueueOp → Bool
  | .Add k => k == key
  | .Elapse k => k == key
  | _ => false

/-- What the queue guarantees at every moment: no key is handed out twice
in the order, pending twice, or in flight twice; a key in the order is
pending and not in flight; a pending key that is not in flight is in the
order. -/
def WorkQueue.Consistent (q : WorkQueue) : Prop :=
  q.queue.Nodup ∧ q.dirty.Nodup ∧ q.processing.Nodup ∧
  (∀ k ∈ q.queue, k ∈ q.dirty ∧ k ∉ q.processing) ∧
  (∀ k ∈ q.dirty, k ∉ q.processing → k ∈ q.queue)

end workqueue

/-! ## Sample objects

Concrete objects and worlds at which the statements below are evaluated.
The sample clock runs in UTC. -/

namespace Sample

/-- One second, in nanoseconds (`time.Second`). -/
def Second : Int := 1000000000

/-- An `At` named `default/job1`. -/
def task (phase schedule command : String) : At :=
  { Name := "job1"
    Namespace := "default"
    UID := "uid-1"
    Labels := []
    OwnerReferences := []
    Spec := { Schedule := schedule, Command := command }
    Status := { Phase := phase } }

/-- The status error of a lookup that finds nothing. -/
def notFound : GoError := .status "NotFound" "not found"

/-- The status error of a request the server could not answer in time. -/
def serverTimeout : GoError := .status "ServerTimeout" "the server timed out"

/-- The status error of a write that lost against a concurrent update. -/
def conflict : GoError := .status "Conflict" "the object has been modified"

/-- The status error of a creation whose object is already there. -/
def alreadyExists : GoError := .status "AlreadyExists" "the pod already exists"

/-- The zero value `&v1.Pod{}`, which the typed client hands back together
with the error when a request fails. -/
def emptyPod : Pod :=
  { Name := "", Namespace := "", UID := "", Labels := [], OwnerReferences := []
    Spec := { Containers := [], RestartPolicy := "" }
    Status := { Phase := "", Reason := "", Message := "" } }

/-- The Pod of `default/job1` as the store holds it, in the given phase. -/
def storedPod (t : At) (phase : String) : Pod :=
  { newPodForCR t with
    UID := "uid-2"
    OwnerReferences := [metav1.NewControllerRef t.toObjectMeta "cnat/v1alpha1" "At"]
    Status := { Phase := phase, Reason := "", Message := "" } }

/-- The parse of three schedule texts, the instant in nanoseconds since
1970-01-01 00:00:00 UTC; every other text is taken as malformed. -/
def parse (schedule : String) : Except GoError Int :=
  if schedule = "2026-11-05 00:00:00" then .ok (1793836800 * Second)
  else if schedule = "2026-11-04 00:00:00" then .ok (1793750400 * Second)
  else if schedule = "9999-12-31 23:59:59" then .ok (253402300799 * Second)
  else .error (.plain "parsing time: cannot parse")

/-- Noon of 2026-11-04 UTC, in nanoseconds since 1970-01-01 00:00:00 UTC. -/
def noon : Int := 1793793600 * Second

/-- A world whose cache holds the one `At` `t` under `default/job1`, whose
clock reads `noon`, whose Pod lookups all answer `pods`, and whose writes
answer `create` and `update`. -/
def world (t : At) (pods : Option Pod × Option GoError)
    (create update : Option GoError) : World :=
  { atLister := fun ns name =>
      if ns = "default" ∧ name = "job1" then .ok t else .error notFound
    now := noon
    ParseInLocation := parse
    podsGet := fun _ _ => pods
    podsCreate := fun _ => create
    UpdateStatus := fun _ => update
    SchemeGroupVersion := "cnat/v1alpha1" }

end Sample

/-! ## Theorems -/

open errors (IsNotFound)

/-! ### Splitting strings -/

theorem splitChars_ne_nil (sep : Char) (l : List Char) : strings.splitChars sep l ≠ [] := by
  cases l with
  | nil => simp [strings.splitChars]
  | cons c cs =>
    simp only [strings.splitChars]
    split
    · simp
    · split <;> simp

theorem splitChars_intercalate (sep : Char) (l : List Char) :
    List.intercalate [sep] (strings.splitChars sep l) = l := by
  induction l with
  | nil => simp [strings.splitChars, List.intercalate]
  | cons c cs ih =>
    simp only [strings.splitChars]
    split
    · next h =>
      subst h
      cases hs : strings.splitChars c cs with
      | nil => exact absurd hs (splitChars_ne_nil c cs)
      | cons w ws =>
        rw [hs] at ih
        rw [← ih]
        simp [List.intercalate, List.intersperse]
    · next h =>
      cases hs : strings.splitChars sep cs with
      | nil => exact absurd hs (splitChars_ne_nil sep cs)
      | cons w ws =>
        rw [hs] at ih
        rw [← ih]
        cases ws <;> simp [List.intercalate, List.intersperse]

theorem splitChars_no_sep (sep : Char) (l : List Char) :
    ∀ w ∈ strings.splitChars sep l, sep ∉ w := by
  induction l with
  | nil => simp [strings.splitChars]
  | cons c cs ih =>
    simp only [strings.splitChars]
    split
    · intro w hw
      rcases List.mem_cons.1 hw with rfl | hw
      · simp
      · exact ih w hw
    · next h =>
      cases hs : strings.splitChars sep cs with
      | nil => exact absurd hs (splitChars_ne_nil sep cs)
      | cons w ws =>
        rw [hs] at ih
        intro v hv
        rcases List.mem_cons.1 hv with rfl | hv
        · have := ih w (List.mem_cons_self _ _)
          simp only [List.mem_cons, not_or]
          exact ⟨fun e => h e.symm, this⟩
        · exact ih v (List.mem_cons_of_mem _ hv)

theorem splitChars_length (sep : Char) (l : List Char) :
    (strings.splitChars sep l).length = l.count sep + 1 := by
  induction l with
  | nil => simp [strings.splitChars]
  | cons c cs ih =>
    simp only [strings.splitChars]
    split
    · next h => subst h; simp [ih]
    · next h =>
      cases hs : strings.splitChars sep cs with
      | nil => exact absurd hs (splitChars_ne_nil sep cs)
      | cons w ws =>
        rw [hs] at ih
        have h2 : (c == sep) = false := by simpa using h
        simp only [List.count_cons, h2, List.length_cons] at ih ⊢
        simpa using ih

/-- Every run produced by the white-space split is a word, whatever the run
being read when the scan starts, provided that run is itself a word. -/
theorem fieldsChars_words (l : List Char) :
    (∀ w ∈ strings.fieldsChars l none, strings.IsWord w) ∧
    (∀ acc, strings.IsWord acc →
      ∀ w ∈ strings.fieldsChars l (some acc), strings.IsWord w) := by
  induction l with
  | nil =>
    refine ⟨by simp [strings.fieldsChars], ?_⟩
    intro acc hacc w hw
    simp only [strings.fieldsChars, List.mem_singleton] at hw
    subst hw
    refine ⟨by simpa using hacc.1, ?_⟩
    intro c hc
    exact hacc.2 c (List.mem_reverse.1 hc)
  | cons c cs ih =>
    have hone : strings.IsSpace c = false → strings.IsWord [c] := by
      intro h
      exact ⟨by simp, by simpa using h⟩
    refine ⟨?_, ?_⟩
    · intro w hw
      simp only [strings.fieldsChars] at hw
      split at hw
      · exact ih.1 w hw
      · next h => exact ih.2 [c] (hone (by simpa using h)) w hw
    · intro acc hacc w hw
      simp only [strings.fieldsChars] at hw
      split at hw
      · rcases List.mem_cons.1 hw with rfl | hw
        · refine ⟨by simpa using hacc.1, ?_⟩
          intro d hd
          exact hacc.2 d (List.mem_reverse.1 hd)
        · exact ih.1 w hw
      · next h =>
        refine ih.2 (c :: acc) ⟨by simp, ?_⟩ w hw
        intro d hd
        rcases List.mem_cons.1 hd with rfl | hd
        · simpa using h
        · exact hacc.2 d hd

/-- Where the split at single spaces yields only words, the white-space
split yields the same list; the second part is the same fact in the middle
of a word, `acc` holding the characters of the word already read. -/
theorem fieldsChars_of_split (l : List Char) :
    ((∀ w ∈ strings.splitChars ' ' l, strings.IsWord w) →
      strings.fieldsChars l none = strings.splitChars ' ' l) ∧
    (∀ acc, (∀ w ∈ strings.splitChars ' ' l, ∀ c ∈ w, strings.IsSpace c = false) →
      (∀ w ∈ (strings.splitChars ' ' l).tail, w ≠ []) →
      strings.fieldsChars l (some acc) =
        (acc.reverse ++ (strings.splitChars ' ' l).headI) :: (strings.splitChars ' ' l).tail) := by
  induction l with
  | nil =>
    refine ⟨?_, ?_⟩
    · intro h
      exact absurd rfl (h [] (by simp [strings.splitChars])).1
    · intro acc _ _
      simp [strings.fieldsChars, strings.splitChars]
  | cons c cs ih =>
    by_cases hc : c = ' '
    · subst hc
      refine ⟨?_, ?_⟩
      · intro h
        exact absurd rfl (h [] (by simp [strings.splitChars])).1
      · intro acc hsp hne
        have hsplit : strings.splitChars ' ' (' ' :: cs) = [] :: strings.splitChars ' ' cs := by
          simp [strings.splitChars]
        rw [hsplit] at hsp hne ⊢
        have hw : ∀ w ∈ strings.splitChars ' ' cs, strings.IsWord w := by
          intro w hw
          exact ⟨hne w (by simpa using hw), hsp w (List.mem_cons_of_mem _ hw)⟩
        have hsp' : strings.IsSpace ' ' = true := by decide
        simp [strings.fieldsChars, hsp', ih.1 hw]
    · cases hs : strings.splitChars ' ' cs with
      | nil => exact absurd hs (splitChars_ne_nil ' ' cs)
      | cons v vs =>
        have hsplit : strings.splitChars ' ' (c :: cs) = (c :: v) :: vs := by
          simp [strings.splitChars, hc, hs]
        rw [hs] at ih
        rw [hsplit]
        refine ⟨?_, ?_⟩
        · intro h
          have hcs : strings.IsSpace c = false := (h (c :: v) (by simp)).2 c (by simp)
          have := ih.2 [c]
            (by
              intro w hw d hd
              rcases List.mem_cons.1 hw with rfl | hw
              · exact (h (c :: w) (by simp)).2 d (by simp [hd])
              · exact (h w (by simp [hw])).2 d hd)
            (by
              intro w hw
              exact (h w (by simpa using Or.inr hw)).1)
          simp [strings.fieldsChars, hcs, this]
        · intro acc hsp hne
          have hcs : strings.IsSpace c = false := hsp (c :: v) (by simp) c (by simp)
          have := ih.2 (c :: acc)
            (by
              intro w hw d hd
              rcases List.mem_cons.1 hw with rfl | hw
              · exact hsp (c :: w) (by simp) d (by simp [hd])
              · exact hsp w (by simp [hw]) d hd)
            (by
              intro w hw
              exact hne w (by simpa using hw))
          simp [strings.fieldsChars, hcs, this]

theorem splitChars_eq_fieldsChars_iff (l : List Char) :
    strings.splitChars ' ' l = strings.fieldsChars l none ↔
      ∀ w ∈ strings.splitChars ' ' l, strings.IsWord w := by
  constructor
  · intro h w hw
    rw [h] at hw
    exact (fieldsChars_words l).1 w hw
  · intro h
    exact ((fieldsChars_of_split l).1 h).symm

theorem string_mk_injective : Function.Injective String.mk := by
  intro a b h
  exact congrArg String.data h

/-- C4 (amended): the Pod built by `newPodForCR` has exactly one container,
and the argv of that container is the command split at every single space
character (`strings.Split(command, " ")`), not at white space: joining the
arguments with single spaces gives the command back, no argument holds a
space, and there is one argument more than there are spaces in the command.
That argv is the white-space split of the command exactly when every
argument so obtained is non-empty and free of white space. -/
theorem newPodForCR_command (cr : At) :
    (newPodForCR cr).Spec.Containers.map Container.Command =
      [strings.Split cr.Spec.Command ' '] ∧
    List.intercalate [' '] ((strings.Split cr.Spec.Command ' ').map String.data) =
      cr.Spec.Command.data ∧
    (∀ arg ∈ strings.Split cr.Spec.Command ' ', ' ' ∉ arg.data) ∧
    (strings.Split cr.Spec.Command ' ').length = cr.Spec.Command.data.count ' ' + 1 ∧
    (strings.Split cr.Spec.Command ' ' = strings.Fields cr.Spec.Command ↔
      ∀ arg ∈ strings.Split cr.Spec.Command ' ', strings.IsWord arg.data) := by
  refine ⟨rfl, ?_, ?_, ?_, ?_⟩
  · have : (fun w : List Char => (String.mk w).data) = id := rfl
    simp only [strings.Split, List.map_map, Function.comp_def]
    rw [this, List.map_id]
    exact splitChars_intercalate ' ' _
  · intro arg harg
    simp only [strings.Split, List.mem_map] at harg
    obtain ⟨w, hw, rfl⟩ := harg
    exact splitChars_no_sep ' ' _ w hw
  · simp [strings.Split, splitChars_length]
  · simp only [strings.Split, strings.Fields]
    rw [(List.map_injective_iff.2 string_mk_injective).eq_iff, splitChars_eq_fieldsChars_iff]
    simp

/-- C4, as stated, fails: for the command `echo  hi` (two spaces) the argv
is `["echo", "", "hi"]`, with an empty argument, whereas the white-space
split is `["echo", "hi"]`; for `echo\thi` (a tab) the argv is the single
argument `echo\thi`. -/
theorem newPodForCR_command_counterexample :
    (newPodForCR (Sample.task "RUNNING" "2026-11-04 00:00:00" "echo  hi")).Spec.Containers.map
        Container.Command = [["echo", "", "hi"]] ∧
    strings.Fields "echo  hi" = ["echo", "hi"] ∧
    (newPodForCR (Sample.task "RUNNING" "2026-11-04 00:00:00" "echo  hi")).Spec.Containers.map
        Container.Command ≠ [strings.Fields "echo  hi"] ∧
    (newPodForCR (Sample.task "RUNNING" "2026-11-04 00:00:00" "echo\thi")).Spec.Containers.map
        Container.Command = [["echo\thi"]] ∧
    strings.Fields "echo\thi" = ["echo", "hi"] := by
  decide

/-! ### One pass of `syncHandler` -/

theorem phase_update_ne (t : At) (phase : String) (h : t.Status.Phase ≠ phase) :
    t ≠ { t with Status := { Phase := phase } } := by
  intro e
  exact h (congrArg (fun a => a.Status.Phase) e)

theorem sub_pos_iff (s now : Int) : time.Sub s now > 0 ↔ now < s := by
  unfold time.Sub time.maxDuration time.minDuration
  split
  · constructor
    · intro _; omega
    · intro _; decide
  · split
    · constructor
      · intro h; exact absurd h (by decide)
      · intro h; omega
    · constructor <;> intro h <;> omega

theorem sub_of_lt (s now : Int) (h : now < s) :
    time.Sub s now = min (s - now) time.maxDuration := by
  unfold time.Sub time.maxDuration time.minDuration
  split
  · omega
  · split <;> omega

/-- The calls of `syncHandler` are calls on the lister, the clients and the
error handler, never on the work queue. -/
theorem syncHandler_no_queue_call (w : World) (key : String) :
    ∀ c ∈ (syncHandler w key).calls, c.isQueueCall = false := by
  unfold syncHandler updateIfChanged
  dsimp only
  repeat' split
  all_goals simp [Call.isQueueCall]

/-- A pass creates at most one Pod, and only after its existence check
answered not-found. -/
theorem syncHandler_create_guarded (w : World) (key : String) :
    ((syncHandler w key).calls.filter Call.isPodsCreate).length ≤ 1 ∧
    ∀ pod, Call.podsCreate pod ∈ (syncHandler w key).calls →
      Call.podsGet pod.Namespace pod.Name ∈ (syncHandler w key).calls ∧
      (w.podsGet pod.Namespace pod.Name).2.any IsNotFound = true := by
  unfold syncHandler updateIfChanged
  dsimp only
  repeat' split
  all_goals simp [Call.isPodsCreate]
  all_goals assumption

/-- C1 (amended): a Task whose stored phase is unset is handled, within the
same pass, as a Pending Task, and no status write carrying `PENDING` is ever
issued: every status write of the pass carries `RUNNING`; no Pod is looked
up or created; a malformed schedule makes the pass return the parse error
after no write; a scheduled time after the clock reading makes it return the
positive wait after no write, so that the stored phase stays unset; a due
schedule makes it issue exactly one status write, carrying `RUNNING`, and
return `(0, err)` with `err` the answer to that write. -/
theorem syncHandler_unset_phase (w : World) (key ns name : String) (t : At)
    (hkey : cache.SplitMetaNamespaceKey key = .ok (ns, name))
    (hget : w.atLister ns name = .ok t)
    (hphase : t.Status.Phase = "") :
    (∀ a, Call.UpdateStatus a ∈ (syncHandler w key).calls → a.Status.Phase = PhaseRunning) ∧
    (∀ c ∈ (syncHandler w key).calls, c.isPodsGet = false ∧ c.isPodsCreate = false) ∧
    (∀ err, w.ParseInLocation t.Spec.Schedule = .error err →
      syncHandler w key = ⟨[.atListerGet ns name, .HandleError], .ret 0 (some err)⟩) ∧
    (∀ s, w.ParseInLocation t.Spec.Schedule = .ok s → w.now < s →
      syncHandler w key = ⟨[.atListerGet ns name], .ret (time.Sub s w.now) none⟩ ∧
      0 < time.Sub s w.now) ∧
    (∀ s, w.ParseInLocation t.Spec.Schedule = .ok s → s ≤ w.now →
      syncHandler w key =
        ⟨[.atListerGet ns name, .UpdateStatus { t with Status := { Phase := PhaseRunning } }],
          .ret 0 (w.UpdateStatus { t with Status := { Phase := PhaseRunning } })⟩) := by
  have hne : t ≠ { t with Status := { Phase := PhaseRunning } } :=
    phase_update_ne t PhaseRunning (by rw [hphase]; decide)
  have herr : ∀ err, w.ParseInLocation t.Spec.Schedule = .error err →
      syncHandler w key = ⟨[.atListerGet ns name, .HandleError], .ret 0 (some err)⟩ := by
    intro err he
    simp [syncHandler, hkey, hget, hphase, timeUntilSchedule, he]
  have hfut : ∀ s, w.ParseInLocation t.Spec.Schedule = .ok s → w.now < s →
      syncHandler w key = ⟨[.atListerGet ns name], .ret (time.Sub s w.now) none⟩ ∧
      0 < time.Sub s w.now := by
    intro s hs hlt
    have hd : time.Sub s w.now > 0 := (sub_pos_iff s w.now).2 hlt
    refine ⟨?_, hd⟩
    simp [syncHandler, hkey, hget, hphase, timeUntilSchedule, hs, hd]
  have hdue : ∀ s, w.ParseInLocation t.Spec.Schedule = .ok s → s ≤ w.now →
      syncHandler w key =
        ⟨[.atListerGet ns name, .UpdateStatus { t with Status := { Phase := PhaseRunning } }],
          .ret 0 (w.UpdateStatus { t with Status := { Phase := PhaseRunning } })⟩ := by
    intro s hs hle
    have hd : ¬ time.Sub s w.now > 0 := fun h => absurd ((sub_pos_iff s w.now).1 h) (not_lt.2 hle)
    simp only [syncHandler, hkey, hget, hphase, timeUntilSchedule, hs, hd, if_true, if_false,
      updateIfChanged]
    simp only [ne_eq, hne, not_false_eq_true, if_true]
    cases w.UpdateStatus { t with Status := { Phase := PhaseRunning } } <;> simp
  refine ⟨?_, ?_, herr, hfut, hdue⟩
  · intro a ha
    cases hp : w.ParseInLocation t.Spec.Schedule with
    | error err => rw [herr err hp] at ha; simp at ha
    | ok s =>
      by_cases hlt : w.now < s
      · rw [(hfut s hp hlt).1] at ha; simp at ha
      · rw [hdue s hp (not_lt.1 hlt)] at ha
        simp at ha
        subst ha
        rfl
  · intro c hc
    cases hp : w.ParseInLocation t.Spec.Schedule with
    | error err =>
      rw [herr err hp] at hc
      simp at hc
      rcases hc with rfl | rfl <;> simp [Call.isPodsGet, Call.isPodsCreate]
    | ok s =>
      by_cases hlt : w.now < s
      · rw [(hfut s hp hlt).1] at hc
        simp at hc
        subst hc
        simp [Call.isPodsGet, Call.isPodsCreate]
      · rw [hdue s hp (not_lt.1 hlt)] at hc
        simp at hc
        rcases hc with rfl | rfl <;> simp [Call.isPodsGet, Call.isPodsCreate]

/-- C1 at a concrete input: the unset Task `default/job1`, scheduled twelve
hours after the clock reading, is requeued after twelve hours and nothing is
written. -/
theorem syncHandler_unset_phase_witness :
    syncHandler
        (Sample.world (Sample.task "" "2026-11-05 00:00:00" "echo hi")
          (none, some Sample.notFound) none none) "default/job1" =
      ⟨[.atListerGet "default" "job1"], .ret (43200 * Sample.Second) none⟩ :=
  ((syncHandler_unset_phase
      (Sample.world (Sample.task "" "2026-11-05 00:00:00" "echo hi")
        (none, some Sample.notFound) none none)
      "default/job1" "default" "job1" (Sample.task "" "2026-11-05 00:00:00" "echo hi")
      (by decide) (by decide) (by decide)).2.2.2.1
    (1793836800 * Sample.Second) (by decide) (by decide)).1.trans (by decide)

/-- C1, as stated, fails: for the unset Task `default/job1` scheduled twelve
hours after the clock reading, the pass issues no status write at all (the
only call is the cache read) and returns a requeue delay of twelve hours. -/
theorem syncHandler_unset_phase_counterexample :
    (Sample.task "" "2026-11-05 00:00:00" "echo hi").Status.Phase = "" ∧
    (syncHandler
        (Sample.world (Sample.task "" "2026-11-05 00:00:00" "echo hi")
          (none, some Sample.notFound) none none) "default/job1").calls =
      [.atListerGet "default" "job1"] ∧
    (syncHandler
        (Sample.world (Sample.task "" "2026-11-05 00:00:00" "echo hi")
          (none, some Sample.notFound) none none) "default/job1").calls.filter
        Call.isUpdateStatus = [] ∧
    (syncHandler
        (Sample.world (Sample.task "" "2026-11-05 00:00:00" "echo hi")
          (none, some Sample.notFound) none none) "default/job1").out =
      .ret 43200000000000 none := by
  decide

/-- C2 (amended): for a Pending Task whose schedule parses to an instant `s`
after the clock reading, the pass makes the cache read and no other call (no
status write, no Pod lookup, no Pod creation) and returns `(d, nil)` where
`d` is `s - now` capped at the largest `time.Duration`; `d` is positive, and
is `s - now` itself whenever that difference fits a `time.Duration`. -/
theorem syncHandler_pending_future (w : World) (key ns name : String) (t : At) (s : Int)
    (hkey : cache.SplitMetaNamespaceKey key = .ok (ns, name))
    (hget : w.atLister ns name = .ok t)
    (hphase : t.Status.Phase = PhasePending)
    (hparse : w.ParseInLocation t.Spec.Schedule = .ok s)
    (hfuture : w.now < s) :
    syncHandler w key =
      ⟨[.atListerGet ns name], .ret (min (s - w.now) time.maxDuration) none⟩ ∧
    0 < min (s - w.now) time.maxDuration ∧
    (s - w.now ≤ time.maxDuration → min (s - w.now) time.maxDuration = s - w.now) ∧
    (∀ c ∈ (syncHandler w key).calls,
      c.isUpdateStatus = false ∧ c.isPodsGet = false ∧ c.isPodsCreate = false) := by
  have hd : time.Sub s w.now > 0 := (sub_pos_iff s w.now).2 hfuture
  have hp : ¬ PhasePending = "" := by decide
  have hpass : syncHandler w key =
      ⟨[.atListerGet ns name], .ret (min (s - w.now) time.maxDuration) none⟩ := by
    rw [← sub_of_lt s w.now hfuture]
    simp [syncHandler, hkey, hget, hphase, hp, timeUntilSchedule, hparse, hd]
  refine ⟨hpass, ?_, ?_, ?_⟩
  · rw [← sub_of_lt s w.now hfuture]; exact hd
  · intro h; exact min_eq_left h
  · intro c hc
    rw [hpass] at hc
    simp at hc
    subst hc
    simp [Call.isUpdateStatus, Call.isPodsGet, Call.isPodsCreate]

/-- C2 at a concrete input: the Pending Task scheduled twelve hours after
the clock reading is requeued after exactly twelve hours. -/
theorem syncHandler_pending_future_witness :
    syncHandler
        (Sample.world (Sample.task "PENDING" "2026-11-05 00:00:00" "echo hi")
          (none, some Sample.notFound) none none) "default/job1" =
      ⟨[.atListerGet "default" "job1"], .ret (43200 * Sample.Second) none⟩ :=
  (syncHandler_pending_future
    (Sample.world (Sample.task "PENDING" "2026-11-05 00:00:00" "echo hi")
      (none, some Sample.notFound) none none)
    "default/job1" "default" "job1" (Sample.task "PENDING" "2026-11-05 00:00:00" "echo hi")
    (1793836800 * Sample.Second) (by decide) (by decide) (by decide) (by decide)
    (by decide)).1.trans (by decide)

/-- C2, as stated, fails: for the Pending Task scheduled at
`9999-12-31 23:59:59`, read at noon of 2026-11-04, the requeue delay returned
is the largest `time.Duration`, 9223372036854775807 ns (about 292 years),
not the difference `scheduledTime - now`, which is 251608507199000000000 ns. -/
theorem syncHandler_pending_future_counterexample :
    (Sample.task "PENDING" "9999-12-31 23:59:59" "echo hi").Status.Phase = PhasePending ∧
    Sample.parse "9999-12-31 23:59:59" = .ok (253402300799 * Sample.Second) ∧
    Sample.noon < 253402300799 * Sample.Second ∧
    253402300799 * Sample.Second - Sample.noon = 251608507199000000000 ∧
    (9223372036854775807 : Int) ≠ 253402300799 * Sample.Second - Sample.noon ∧
    syncHandler
        (Sample.world (Sample.task "PENDING" "9999-12-31 23:59:59" "echo hi")
          (none, some Sample.notFound) none none) "default/job1" =
      ⟨[.atListerGet "default" "job1"], .ret 9223372036854775807 none⟩ := by
  decide

theorem ownedPod_name (w : World) (t : At) : (ownedPod w t).Name = t.Name ++ "-pod" := rfl

theorem ownedPod_namespace (w : World) (t : At) : (ownedPod w t).Namespace = t.Namespace := rfl

/-- The `RUNNING` case of `syncHandler` when the Pod lookup answers
not-found: the Pod is created, and nothing is written. -/
theorem syncHandler_running_create (w : World) (key ns name : String) (t : At)
    (found : Option Pod) (e : errors.GoError)
    (hkey : cache.SplitMetaNamespaceKey key = .ok (ns, name))
    (hget : w.atLister ns name = .ok t)
    (hphase : t.Status.Phase = PhaseRunning)
    (hpods : w.podsGet t.Namespace (t.Name ++ "-pod") = (found, some e))
    (hnf : IsNotFound e = true) :
    syncHandler w key =
      ⟨[.atListerGet ns name, .podsGet t.Namespace (t.Name ++ "-pod"),
          .podsCreate (ownedPod w t)], .ret 0 (w.podsCreate (ownedPod w t))⟩ := by
  have h1 : ¬ PhaseRunning = "" := by decide
  have h2 : ¬ PhaseRunning = PhasePending := by decide
  simp only [syncHandler, hkey, hget, hphase, h1, h2, if_false, if_true, ownedPod_name,
    ownedPod_namespace, hpods, Option.any_some, hnf, updateIfChanged]
  cases w.podsCreate (ownedPod w t) <;> simp

/-- The `RUNNING` case of `syncHandler` when the Pod lookup does not answer
not-found and hands back a Pod. -/
theorem syncHandler_running_found (w : World) (key ns name : String) (t : At)
    (found : Pod) (err : Option errors.GoError)
    (hkey : cache.SplitMetaNamespaceKey key = .ok (ns, name))
    (hget : w.atLister ns name = .ok t)
    (hphase : t.Status.Phase = PhaseRunning)
    (hpods : w.podsGet t.Namespace (t.Name ++ "-pod") = (some found, err))
    (hnf : err.any IsNotFound = false) :
    syncHandler w key =
      if found.Status.Phase = PodFailed ∨ found.Status.Phase = PodSucceeded then
        ⟨[.atListerGet ns name, .podsGet t.Namespace (t.Name ++ "-pod"),
            .UpdateStatus { t with Status := { Phase := PhaseDone } }],
          .ret 0 (w.UpdateStatus { t with Status := { Phase := PhaseDone } })⟩
      else ⟨[.atListerGet ns name, .podsGet t.Namespace (t.Name ++ "-pod")], .ret 0 none⟩ := by
  have h1 : ¬ PhaseRunning = "" := by decide
  have h2 : ¬ PhaseRunning = PhasePending := by decide
  have hne : t ≠ { t with Status := { Phase := PhaseDone } } :=
    phase_update_ne t PhaseDone (by rw [hphase]; decide)
  simp only [syncHandler, hkey, hget, hphase, h1, h2, if_false, if_true, ownedPod_name,
    ownedPod_namespace, hpods, hnf, updateIfChanged, Bool.false_eq_true]
  split
  · cases w.UpdateStatus { t with Status := { Phase := PhaseDone } } <;> simp
  · rfl

/-- The `DONE` case of `syncHandler`: the cache read and nothing else. -/
theorem syncHandler_done (w : World) (key ns name : String) (t : At)
    (hkey : cache.SplitMetaNamespaceKey key = .ok (ns, name))
    (hget : w.atLister ns name = .ok t)
    (hphase : t.Status.Phase = PhaseDone) :
    syncHandler w key = ⟨[.atListerGet ns name], .ret 0 none⟩ := by
  have h1 : ¬ PhaseDone = "" := by decide
  have h2 : ¬ PhaseDone = PhasePending := by decide
  have h3 : ¬ PhaseDone = PhaseRunning := by decide
  simp [syncHandler, hkey, hget, hphase, h1, h2, h3]

/-- The `PENDING` case of `syncHandler` for a schedule that is due. -/
theorem syncHandler_pending_due (w : World) (key ns name : String) (t : At) (s : Int)
    (hkey : cache.SplitMetaNamespaceKey key = .ok (ns, name))
    (hget : w.atLister ns name = .ok t)
    (hphase : t.Status.Phase = PhasePending)
    (hparse : w.ParseInLocation t.Spec.Schedule = .ok s)
    (hdue : s - w.now ≤ 0) :
    syncHandler w key =
      ⟨[.atListerGet ns name, .UpdateStatus { t with Status := { Phase := PhaseRunning } }],
        .ret 0 (w.UpdateStatus { t with Status := { Phase := PhaseRunning } })⟩ := by
  have h1 : ¬ PhasePending = "" := by decide
  have hne : t ≠ { t with Status := { Phase := PhaseRunning } } :=
    phase_update_ne t PhaseRunning (by rw [hphase]; decide)
  have hd : ¬ time.Sub s w.now > 0 := fun h =>
    absurd ((sub_pos_iff s w.now).1 h) (by omega)
  simp only [syncHandler, hkey, hget, hphase, h1, timeUntilSchedule, hparse, hd, if_true,
    if_false, updateIfChanged]
  simp only [ne_eq, hne, not_false_eq_true, if_true]
  cases w.UpdateStatus { t with Status := { Phase := PhaseRunning } } <;> simp

/-- C3 (amended): a Pending Task with a well-formed schedule that is due
goes to Running in one pass and gets its Pod in the next.  The first pass
issues the cache read and exactly one status write, carrying `RUNNING`,
creates no Pod, and returns `(0, err)` with `err` the answer of the store
to that write: `(0, nil)` when the write is accepted, the error of the
write otherwise.  The second pass, on the Task so written and with the Pod
lookup answering not-found, issues exactly one creation and no status
write, and returns `(0, err)` with `err` the answer of the store to the
creation; the Pod created is named `taskName + "-pod"`, lies in the
namespace of the Task, and its controlling owner reference has kind `At`
and the name and UID of the Task. -/
theorem syncHandler_due_two_passes (w1 w2 : World) (key ns name : String) (t : At) (s : Int)
    (found : Option Pod) (e : errors.GoError)
    (hkey : cache.SplitMetaNamespaceKey key = .ok (ns, name))
    (hget1 : w1.atLister ns name = .ok t)
    (hphase : t.Status.Phase = PhasePending)
    (hparse : w1.ParseInLocation t.Spec.Schedule = .ok s)
    (hdue : s - w1.now ≤ 0)
    (hget2 : w2.atLister ns name = .ok { t with Status := { Phase := PhaseRunning } })
    (hnojob : w2.podsGet t.Namespace (t.Name ++ "-pod") = (found, some e))
    (hnf : IsNotFound e = true) :
    syncHandler w1 key =
      ⟨[.atListerGet ns name, .UpdateStatus { t with Status := { Phase := PhaseRunning } }],
        .ret 0 (w1.UpdateStatus { t with Status := { Phase := PhaseRunning } })⟩ ∧
    (w1.UpdateStatus { t with Status := { Phase := PhaseRunning } } = none →
      (syncHandler w1 key).out = .ret 0 none) ∧
    syncHandler w2 key =
      ⟨[.atListerGet ns name, .podsGet t.Namespace (t.Name ++ "-pod"),
          .podsCreate (ownedPod w2 { t with Status := { Phase := PhaseRunning } })],
        .ret 0 (w2.podsCreate (ownedPod w2 { t with Status := { Phase := PhaseRunning } }))⟩ ∧
    (w2.podsCreate (ownedPod w2 { t with Status := { Phase := PhaseRunning } }) = none →
      (syncHandler w2 key).out = .ret 0 none) ∧
    (ownedPod w2 { t with Status := { Phase := PhaseRunning } }).Name = t.Name ++ "-pod" ∧
    (ownedPod w2 { t with Status := { Phase := PhaseRunning } }).Namespace = t.Namespace ∧
    metav1.GetControllerOf
        (ownedPod w2 { t with Status := { Phase := PhaseRunning } }).toObjectMeta =
      some
        { APIVersion := w2.SchemeGroupVersion, Kind := "At", Name := t.Name, UID := t.UID,
          Controller := some true, BlockOwnerDeletion := some true } := by
  have p1 := syncHandler_pending_due w1 key ns name t s hkey hget1 hphase hparse hdue
  have p2 := syncHandler_running_create w2 key ns name
    { t with Status := { Phase := PhaseRunning } } found e hkey hget2 rfl hnojob hnf
  refine ⟨p1, ?_, p2, ?_, rfl, rfl, ?_⟩
  · intro h
    rw [p1, h]
  · intro h
    rw [p2, h]
  · simp [metav1.GetControllerOf, ownedPod, newPodForCR, metav1.NewControllerRef]

/-- C3 at a concrete input: the Pending Task `default/job1`, due twelve hours
before the clock reading, is written as Running by the first pass; the
second pass, finding no Pod, creates `default/job1-pod`. -/
theorem syncHandler_due_two_passes_witness :
    syncHandler
        (Sample.world (Sample.task "PENDING" "2026-11-04 00:00:00" "echo hi")
          (some Sample.emptyPod, some Sample.notFound) none none) "default/job1" =
      ⟨[.atListerGet "default" "job1",
          .UpdateStatus (Sample.task "RUNNING" "2026-11-04 00:00:00" "echo hi")],
        .ret 0 none⟩ ∧
    (syncHandler
        (Sample.world (Sample.task "RUNNING" "2026-11-04 00:00:00" "echo hi")
          (some Sample.emptyPod, some Sample.notFound) none none) "default/job1").calls.map
        Call.isPodsCreate = [false, false, true] ∧
    (syncHandler
        (Sample.world (Sample.task "RUNNING" "2026-11-04 00:00:00" "echo hi")
          (some Sample.emptyPod, some Sample.notFound) none none) "default/job1").out =
      .ret 0 none :=
  have h := syncHandler_due_two_passes
    (Sample.world (Sample.task "PENDING" "2026-11-04 00:00:00" "echo hi")
      (some Sample.emptyPod, some Sample.notFound) none none)
    (Sample.world (Sample.task "RUNNING" "2026-11-04 00:00:00" "echo hi")
      (some Sample.emptyPod, some Sample.notFound) none none)
    "default/job1" "default" "job1" (Sample.task "PENDING" "2026-11-04 00:00:00" "echo hi")
    (1793750400 * Sample.Second) (some Sample.emptyPod) Sample.notFound
    (by decide) (by decide) (by decide) (by decide) (by decide) (by decide) (by decide)
    (by decide)
  ⟨h.1.trans (by decide), by rw [h.2.2.1]; decide, h.2.2.2.1 (by decide)⟩

/-- C3, as stated, fails where the store refuses a call: the Pending Task
`default/job1` is due and no Pod exists, yet when the status write answers
a conflict the first pass returns `(0, conflict)`, and when the creation
answers already-exists the second pass returns `(0, alreadyExists)`; neither
returns `(0, nil)`. -/
theorem syncHandler_due_two_passes_counterexample :
    syncHandler
        (Sample.world (Sample.task "PENDING" "2026-11-04 00:00:00" "echo hi")
          (some Sample.emptyPod, some Sample.notFound) none (some Sample.conflict))
        "default/job1" =
      ⟨[.atListerGet "default" "job1",
          .UpdateStatus (Sample.task "RUNNING" "2026-11-04 00:00:00" "echo hi")],
        .ret 0 (some Sample.conflict)⟩ ∧
    (syncHandler
        (Sample.world (Sample.task "RUNNING" "2026-11-04 00:00:00" "echo hi")
          (some Sample.emptyPod, some Sample.notFound) (some Sample.alreadyExists) none)
        "default/job1").out =
      .ret 0 (some Sample.alreadyExists) ∧
    (syncHandler
        (Sample.world (Sample.task "RUNNING" "2026-11-04 00:00:00" "echo hi")
          (some Sample.emptyPod, some Sample.notFound) (some Sample.alreadyExists) none)
        "default/job1").calls.map Call.isPodsCreate = [false, false, true] := by
  decide

/-- C5: for a Running Task whose Pod exists in a terminal phase (succeeded
or failed), one pass issues exactly one status write, carrying `DONE`, and
creates no Pod; and every pass on a Task in phase `DONE`, in whatever world,
is a no-op: it reads the cache, issues no status write, no Pod lookup and no
Pod creation, and returns `(0, nil)`. -/
theorem syncHandler_terminal_then_done (w : World) (key ns name : String) (t : At)
    (found : Pod)
    (hkey : cache.SplitMetaNamespaceKey key = .ok (ns, name))
    (hget : w.atLister ns name = .ok t)
    (hphase : t.Status.Phase = PhaseRunning)
    (hjob : w.podsGet t.Namespace (t.Name ++ "-pod") = (some found, none))
    (hterminal : found.Status.Phase = PodSucceeded ∨ found.Status.Phase = PodFailed) :
    (syncHandler w key).calls =
      [.atListerGet ns name, .podsGet t.Namespace (t.Name ++ "-pod"),
        .UpdateStatus { t with Status := { Phase := PhaseDone } }] ∧
    (syncHandler w key).calls.filter Call.isUpdateStatus =
      [.UpdateStatus { t with Status := { Phase := PhaseDone } }] ∧
    (syncHandler w key).calls.filter Call.isPodsCreate = [] ∧
    (∀ (w2 : World) (d : At), w2.atLister ns name = .ok d → d.Status.Phase = PhaseDone →
      syncHandler w2 key = ⟨[.atListerGet ns name], .ret 0 none⟩) := by
  have hp := syncHandler_running_found w key ns name t found none hkey hget hphase hjob rfl
  rw [if_pos hterminal.symm] at hp
  refine ⟨by rw [hp], by rw [hp]; rfl, by rw [hp]; rfl, ?_⟩
  intro w2 d hd hdone
  exact syncHandler_done w2 key ns name d hkey hd hdone

/-- C5 at a concrete input: the Running Task `default/job1` whose Pod has
succeeded is written as Done, and a pass on the Done Task does nothing. -/
theorem syncHandler_terminal_then_done_witness :
    (syncHandler
        (Sample.world (Sample.task "RUNNING" "2026-11-04 00:00:00" "echo hi")
          (some (Sample.storedPod (Sample.task "RUNNING" "2026-11-04 00:00:00" "echo hi")
            "Succeeded"), none) none none) "default/job1").calls =
      [.atListerGet "default" "job1", .podsGet "default" "job1-pod",
        .UpdateStatus (Sample.task "DONE" "2026-11-04 00:00:00" "echo hi")] ∧
    syncHandler
        (Sample.world (Sample.task "DONE" "2026-11-04 00:00:00" "echo hi")
          (some (Sample.storedPod (Sample.task "RUNNING" "2026-11-04 00:00:00" "echo hi")
            "Succeeded"), none) none none) "default/job1" =
      ⟨[.atListerGet "default" "job1"], .ret 0 none⟩ :=
  have h := syncHandler_terminal_then_done
    (Sample.world (Sample.task "RUNNING" "2026-11-04 00:00:00" "echo hi")
      (some (Sample.storedPod (Sample.task "RUNNING" "2026-11-04 00:00:00" "echo hi")
        "Succeeded"), none) none none)
    "default/job1" "default" "job1" (Sample.task "RUNNING" "2026-11-04 00:00:00" "echo hi")
    (Sample.storedPod (Sample.task "RUNNING" "2026-11-04 00:00:00" "echo hi") "Succeeded")
    (by decide) (by decide) (by decide) (by decide) (by decide)
  ⟨h.1, h.2.2.2 _ (Sample.task "DONE" "2026-11-04 00:00:00" "echo hi") (by decide) (by decide)⟩

/-- Passes that make no status write and no creation make none when
repeated. -/
theorem repeatSync_quiet (w : World) (key : String)
    (h : ∀ c ∈ (syncHandler w key).calls, c.isUpdateStatus = false ∧ c.isPodsCreate = false)
    (n : Nat) :
    (repeatSync w key n).filter Call.isUpdateStatus = [] ∧
    (repeatSync w key n).filter Call.isPodsCreate = [] := by
  induction n with
  | zero => simp [repeatSync]
  | succ n ih =>
    simp only [repeatSync, List.filter_append, ih.1, ih.2, List.append_nil]
    constructor
    · rw [List.filter_eq_nil_iff]
      intro c hc
      simp [(h c hc).1]
    · rw [List.filter_eq_nil_iff]
      intro c hc
      simp [(h c hc).2]

/-- C6: for a Running Task whose Pod lookup finds a Pod, the pass creates no
Pod; in any pass whatever a Pod is created at most once, and only after the
lookup of that very Pod answered not-found; and if the Pod found is neither
failed nor succeeded, the pass makes the cache read and the lookup only,
writes nothing and returns `(0, nil)`, so that any number of passes against
the same observations issue no status write and no creation. -/
theorem syncHandler_running_job_found (w : World) (key ns name : String) (t : At)
    (found : Pod)
    (hkey : cache.SplitMetaNamespaceKey key = .ok (ns, name))
    (hget : w.atLister ns name = .ok t)
    (hphase : t.Status.Phase = PhaseRunning)
    (hjob : w.podsGet t.Namespace (t.Name ++ "-pod") = (some found, none)) :
    (syncHandler w key).calls.filter Call.isPodsCreate = [] ∧
    (∀ (w2 : World) (key2 : String),
      ((syncHandler w2 key2).calls.filter Call.isPodsCreate).length ≤ 1 ∧
      ∀ pod, Call.podsCreate pod ∈ (syncHandler w2 key2).calls →
        Call.podsGet pod.Namespace pod.Name ∈ (syncHandler w2 key2).calls ∧
        (w2.podsGet pod.Namespace pod.Name).2.any IsNotFound = true) ∧
    (found.Status.Phase ≠ PodFailed → found.Status.Phase ≠ PodSucceeded →
      syncHandler w key =
        ⟨[.atListerGet ns name, .podsGet t.Namespace (t.Name ++ "-pod")], .ret 0 none⟩ ∧
      ∀ n, (repeatSync w key n).filter Call.isUpdateStatus = [] ∧
        (repeatSync w key n).filter Call.isPodsCreate = []) := by
  have hp := syncHandler_running_found w key ns name t found none hkey hget hphase hjob rfl
  refine ⟨?_, fun w2 key2 => syncHandler_create_guarded w2 key2, ?_⟩
  · rw [hp]
    split <;> rfl
  · intro hf hs
    have hq : syncHandler w key =
        ⟨[.atListerGet ns name, .podsGet t.Namespace (t.Name ++ "-pod")], .ret 0 none⟩ := by
      rw [hp, if_neg (by simp [hf, hs])]
    refine ⟨hq, repeatSync_quiet w key ?_⟩
    intro c hc
    rw [hq] at hc
    simp at hc
    rcases hc with rfl | rfl <;> simp [Call.isUpdateStatus, Call.isPodsCreate]

/-- C6 at a concrete input: the Running Task `default/job1` whose Pod is
running is left alone, three passes in a row. -/
theorem syncHandler_running_job_found_witness :
    syncHandler
        (Sample.world (Sample.task "RUNNING" "2026-11-04 00:00:00" "echo hi")
          (some (Sample.storedPod (Sample.task "RUNNING" "2026-11-04 00:00:00" "echo hi")
            "Running"), none) none none) "default/job1" =
      ⟨[.atListerGet "default" "job1", .podsGet "default" "job1-pod"], .ret 0 none⟩ ∧
    (repeatSync
        (Sample.world (Sample.task "RUNNING" "2026-11-04 00:00:00" "echo hi")
          (some (Sample.storedPod (Sample.task "RUNNING" "2026-11-04 00:00:00" "echo hi")
            "Running"), none) none none) "default/job1" 3).filter Call.isUpdateStatus = [] :=
  have h := (syncHandler_running_job_found
    (Sample.world (Sample.task "RUNNING" "2026-11-04 00:00:00" "echo hi")
      (some (Sample.storedPod (Sample.task "RUNNING" "2026-11-04 00:00:00" "echo hi")
        "Running"), none) none none)
    "default/job1" "default" "job1" (Sample.task "RUNNING" "2026-11-04 00:00:00" "echo hi")
    (Sample.storedPod (Sample.task "RUNNING" "2026-11-04 00:00:00" "echo hi") "Running")
    (by decide) (by decide) (by decide) (by decide)).2.2 (by decide) (by decide)
  ⟨h.1, (h.2 3).1⟩

/-- The store errors that `syncHandler` does return: an error of the cache
read other than not-found, an error of the Pod creation, and an error of
the status write (here the write of `RUNNING`) all end the pass in
`(0, err)`. -/
theorem syncHandler_store_errors_returned (w : World) (key ns name : String) (t : At)
    (err : errors.GoError)
    (hkey : cache.SplitMetaNamespaceKey key = .ok (ns, name)) :
    (w.atLister ns name = .error err → IsNotFound err = false →
      (syncHandler w key).out = .ret 0 (some err)) ∧
    (∀ found e, w.atLister ns name = .ok t → t.Status.Phase = PhaseRunning →
      w.podsGet t.Namespace (t.Name ++ "-pod") = (found, some e) → IsNotFound e = true →
      w.podsCreate (ownedPod w t) = some err →
      (syncHandler w key).out = .ret 0 (some err)) ∧
    (∀ s, w.atLister ns name = .ok t → t.Status.Phase = PhasePending →
      w.ParseInLocation t.Spec.Schedule = .ok s → s - w.now ≤ 0 →
      w.UpdateStatus { t with Status := { Phase := PhaseRunning } } = some err →
      (syncHandler w key).out = .ret 0 (some err)) := by
  refine ⟨?_, ?_, ?_⟩
  · intro hget hnf
    simp [syncHandler, hkey, hget, hnf]
  · intro found e hget hphase hpods hnf hcreate
    rw [syncHandler_running_create w key ns name t found e hkey hget hphase hpods hnf, hcreate]
  · intro s hget hphase hparse hdue hwrite
    rw [syncHandler_pending_due w key ns name t s hkey hget hphase hparse hdue, hwrite]

/-- C7 at the failing input: the Task `default/job1` is Running and the
lookup of its Pod fails with a server timeout, the client handing back the
zero Pod with the error.  The error is not not-found, yet `syncHandler`
returns `(0, nil)`, and `processNextItem` calls `Forget` and `Done` and not
`AddRateLimited`: the key is not retried. -/
theorem syncHandler_lookup_timeout :
    IsNotFound Sample.serverTimeout = false ∧
    syncHandler
        (Sample.world (Sample.task "RUNNING" "2026-11-04 00:00:00" "echo hi")
          (some Sample.emptyPod, some Sample.serverTimeout) none none) "default/job1" =
      ⟨[.atListerGet "default" "job1", .podsGet "default" "job1-pod"], .ret 0 none⟩ ∧
    processNextItem
        (Sample.world (Sample.task "RUNNING" "2026-11-04 00:00:00" "echo hi")
          (some Sample.emptyPod, some Sample.serverTimeout) none none)
        (.str "default/job1") false =
      ⟨[.atListerGet "default" "job1", .podsGet "default" "job1-pod",
          .Forget (.str "default/job1"), .Done (.str "default/job1")], some true⟩ := by
  decide

/-! ### The Pod event router and the worker step -/

theorem length_pos_of_ne_empty (s : String) (h : s ≠ "") : s.length > 0 := by
  cases s with
  | mk l =>
    cases l with
    | nil => exact absurd rfl h
    | cons c cs => simp [String.length]

/-- The key function never fails on a Task, so that `enqueueAt` on a Task
is one `Add` of its key. -/
theorem enqueueAt_atObj (a : At) :
    enqueueAt (.atObj a) =
      [.Add (.str (if a.Namespace.length > 0 then a.Namespace ++ "/" ++ a.Name else a.Name))] := by
  by_cases h : a.Namespace.length > 0 <;>
    simp [enqueueAt, cache.MetaNamespaceKeyFunc, cache.Accessor, h]

/-- C8: a Pod notification, the Pod itself or a deletion placeholder that
wraps it, is routed the same way, and never to the error handler.  When the
controlling owner reference of the Pod has kind `At` and the lister finds a
Task of that name in the namespace of the Pod, the only queue call is one
`Add`, of the key of that Task (`namespace/name` for a Task that has a
namespace); in every other case no call at all is made on the queue. -/
theorem enqueuePod_owner_resolution (w : World) (p : Pod) (k : String) :
    enqueuePod w (.tombstone k (.pod p)) = enqueuePod w (.pod p) ∧
    Call.HandleError ∉ enqueuePod w (.pod p) ∧
    (∀ ref a, metav1.GetControllerOf p.toObjectMeta = some ref → ref.Kind = "At" →
      w.atLister p.Namespace ref.Name = .ok a →
      ∃ key, cache.MetaNamespaceKeyFunc (.atObj a) = .ok key ∧
        (a.Namespace ≠ "" → key = a.Namespace ++ "/" ++ a.Name) ∧
        (enqueuePod w (.pod p)).filter Call.isQueueCall = [.Add (.str key)]) ∧
    ((¬ ∃ ref a, metav1.GetControllerOf p.toObjectMeta = some ref ∧ ref.Kind = "At" ∧
        w.atLister p.Namespace ref.Name = .ok a) →
      (enqueuePod w (.pod p)).filter Call.isQueueCall = []) := by
  refine ⟨rfl, ?_, ?_, ?_⟩
  · simp only [enqueuePod, enqueueOwner]
    split
    · simp
    · split
      · simp
      · split
        · simp
        · simp [enqueueAt_atObj]
  · intro ref a href hkind hget
    by_cases hns : a.Namespace.length > 0
    · refine ⟨a.Namespace ++ "/" ++ a.Name, ?_, fun _ => rfl, ?_⟩
      · simp [cache.MetaNamespaceKeyFunc, cache.Accessor, hns]
      · simp [enqueuePod, enqueueOwner, href, hkind, hget, enqueueAt,
          cache.MetaNamespaceKeyFunc, cache.Accessor, hns, Call.isQueueCall]
    · refine ⟨a.Name, ?_, ?_, ?_⟩
      · simp [cache.MetaNamespaceKeyFunc, cache.Accessor, hns]
      · intro hne
        exact absurd (length_pos_of_ne_empty _ hne) hns
      · simp [enqueuePod, enqueueOwner, href, hkind, hget, enqueueAt,
          cache.MetaNamespaceKeyFunc, cache.Accessor, hns, Call.isQueueCall]
  · intro hno
    simp only [enqueuePod, enqueueOwner]
    split
    · rfl
    · next ref href =>
      split
      · rfl
      · next hkind =>
        split
        · rfl
        · next a hget =>
          exact absurd ⟨ref, a, href, not_not.1 hkind, hget⟩ hno

/-- C8 at concrete inputs: the deletion placeholder of the Pod owned by the
cached Task `default/job1` adds the key `default/job1`; the same Pod without
owner references, and the same Pod when the cache does not hold its owner,
add nothing. -/
theorem enqueuePod_owner_resolution_witness :
    enqueuePod
        (Sample.world (Sample.task "RUNNING" "2026-11-04 00:00:00" "echo hi")
          (none, some Sample.notFound) none none)
        (.tombstone "default/job1-pod"
          (.pod (Sample.storedPod (Sample.task "RUNNING" "2026-11-04 00:00:00" "echo hi")
            "Succeeded"))) =
      [.atListerGet "default" "job1", .Add (.str "default/job1")] ∧
    (enqueuePod
        (Sample.world (Sample.task "RUNNING" "2026-11-04 00:00:00" "echo hi")
          (none, some Sample.notFound) none none)
        (.pod Sample.emptyPod)).filter Call.isQueueCall = [] :=
  ⟨(enqueuePod_owner_resolution
      (Sample.world (Sample.task "RUNNING" "2026-11-04 00:00:00" "echo hi")
        (none, some Sample.notFound) none none)
      (Sample.storedPod (Sample.task "RUNNING" "2026-11-04 00:00:00" "echo hi") "Succeeded")
      "default/job1-pod").1.trans (by decide),
    (enqueuePod_owner_resolution
      (Sample.world (Sample.task "RUNNING" "2026-11-04 00:00:00" "echo hi")
        (none, some Sample.notFound) none none)
      Sample.emptyPod "").2.2.2 (by rintro ⟨_, _, h, _⟩; cases h)⟩

/-- C9: the worker step on a string key taken from the queue with the
shutdown flag unset.  According to what the reconciler returns, its queue
calls are `AddRateLimited(key)` then `Done(key)` on an error,
`AddAfter(key, d)` then `Done(key)` on success with a delay `d` other than
zero, and `Forget(key)` then `Done(key)` on success with no delay; it
returns `true` in the three cases.  With the shutdown flag set it makes no
call and returns `false`, and it returns `false` in no other case. -/
theorem processNextItem_queue_calls (w : World) (key : String) (obj : Obj)
    (shutdown : Bool) :
    (∀ d e, (syncHandler w key).out = .ret d (some e) →
      (processNextItem w (.str key) false).calls.filter Call.isQueueCall =
        [.AddRateLimited (.str key), .Done (.str key)] ∧
      (processNextItem w (.str key) false).result = some true) ∧
    (∀ d, (syncHandler w key).out = .ret d none → d ≠ 0 →
      (processNextItem w (.str key) false).calls.filter Call.isQueueCall =
        [.AddAfter (.str key) d, .Done (.str key)] ∧
      (processNextItem w (.str key) false).result = some true) ∧
    ((syncHandler w key).out = .ret 0 none →
      (processNextItem w (.str key) false).calls.filter Call.isQueueCall =
        [.Forget (.str key), .Done (.str key)] ∧
      (processNextItem w (.str key) false).result = some true) ∧
    processNextItem w obj true = ⟨[], some false⟩ ∧
    ((processNextItem w obj shutdown).result = some false ↔ shutdown = true) := by
  have hq : (syncHandler w key).calls.filter Call.isQueueCall = [] := by
    rw [List.filter_eq_nil_iff]
    intro c hc
    simp [syncHandler_no_queue_call w key c hc]
  refine ⟨?_, ?_, ?_, rfl, ?_⟩
  · intro d e hout
    rcases hs : syncHandler w key with ⟨calls, out⟩
    rw [hs] at hout hq
    simp only at hout hq
    subst hout
    simp [processNextItem, hs, List.filter_append, hq, Call.isQueueCall]
  · intro d hout hd
    rcases hs : syncHandler w key with ⟨calls, out⟩
    rw [hs] at hout hq
    simp only at hout hq
    subst hout
    simp [processNextItem, hs, List.filter_append, hq, Call.isQueueCall, hd]
  · intro hout
    rcases hs : syncHandler w key with ⟨calls, out⟩
    rw [hs] at hout hq
    simp only at hout hq
    subst hout
    simp [processNextItem, hs, List.filter_append, hq, Call.isQueueCall]
  · cases shutdown with
    | true => simp [processNextItem]
    | false =>
      simp only [processNextItem, Bool.false_eq_true, if_false, iff_false]
      split
      · split
        · simp
        · split <;> simp
        · simp
      · simp

/-- C9 at concrete inputs: a Pending Task scheduled twelve hours ahead is
re-added after twelve hours; a Done Task is forgotten; a Running Task whose
Pod creation is refused is re-added with rate limiting. -/
theorem processNextItem_queue_calls_witness :
    (processNextItem
        (Sample.world (Sample.task "PENDING" "2026-11-05 00:00:00" "echo hi")
          (none, some Sample.notFound) none none)
        (.str "default/job1") false).calls.filter Call.isQueueCall =
      [.AddAfter (.str "default/job1") (43200 * Sample.Second), .Done (.str "default/job1")] ∧
    (processNextItem
        (Sample.world (Sample.task "DONE" "2026-11-05 00:00:00" "echo hi")
          (none, some Sample.notFound) none none)
        (.str "default/job1") false).calls.filter Call.isQueueCall =
      [.Forget (.str "default/job1"), .Done (.str "default/job1")] ∧
    (processNextItem
        (Sample.world (Sample.task "RUNNING" "2026-11-05 00:00:00" "echo hi")
          (some Sample.emptyPod, some Sample.notFound) (some Sample.serverTimeout) none)
        (.str "default/job1") false).calls.filter Call.isQueueCall =
      [.AddRateLimited (.str "default/job1"), .Done (.str "default/job1")] :=
  ⟨((processNextItem_queue_calls
      (Sample.world (Sample.task "PENDING" "2026-11-05 00:00:00" "echo hi")
        (none, some Sample.notFound) none none)
      "default/job1" (.str "default/job1") false).2.1
      (43200 * Sample.Second) (by decide) (by decide)).1,
    ((processNextItem_queue_calls
      (Sample.world (Sample.task "DONE" "2026-11-05 00:00:00" "echo hi")
        (none, some Sample.notFound) none none)
      "default/job1" (.str "default/job1") false).2.2.1 (by decide)).1,
    ((processNextItem_queue_calls
      (Sample.world (Sample.task "RUNNING" "2026-11-05 00:00:00" "echo hi")
        (some Sample.emptyPod, some Sample.notFound) (some Sample.serverTimeout) none)
      "default/job1" (.str "default/job1") false).1
      0 Sample.serverTimeout (by decide)).1⟩

/-! ### The work queue -/

open workqueue

theorem consistent_empty : WorkQueue.empty.Consistent := by
  simp [WorkQueue.Consistent, WorkQueue.empty]

theorem consistent_add (q : WorkQueue) (key : String) (h : q.Consistent) :
    (q.add key).Consistent := by
  obtain ⟨hq, hd, hp, hqd, hdq⟩ := h
  unfold WorkQueue.add
  split
  · exact ⟨hq, hd, hp, hqd, hdq⟩
  · next hnd =>
    split
    · next hproc =>
      refine ⟨hq, List.nodup_cons.2 ⟨hnd, hd⟩, hp, ?_, ?_⟩
      · intro k hk
        exact ⟨List.mem_cons_of_mem _ (hqd k hk).1, (hqd k hk).2⟩
      · intro k hk hkp
        rcases List.mem_cons.1 hk with rfl | hk
        · exact absurd hproc hkp
        · exact hdq k hk hkp
    · next hproc =>
      have hnq : key ∉ q.queue := fun hk => hnd (hqd key hk).1
      refine ⟨?_, List.nodup_cons.2 ⟨hnd, hd⟩, hp, ?_, ?_⟩
      · exact List.nodup_append.2 ⟨hq, List.nodup_singleton _, by
          intro a ha hb
          rw [List.mem_singleton] at hb
          exact hnq (hb ▸ ha)⟩
      · intro k hk
        rcases List.mem_append.1 hk with hk | hk
        · exact ⟨List.mem_cons_of_mem _ (hqd k hk).1, (hqd k hk).2⟩
        · rw [List.mem_singleton] at hk
          subst hk
          exact ⟨List.mem_cons_self _ _, hproc⟩
      · intro k hk hkp
        rcases List.mem_cons.1 hk with rfl | hk
        · exact List.mem_append.2 (Or.inr (List.mem_singleton.2 rfl))
        · exact List.mem_append.2 (Or.inl (hdq k hk hkp))

theorem consistent_step (q : WorkQueue) (op : QueueOp) (h : q.Consistent) :
    (q.step op).Consistent := by
  cases op with
  | Add key => exact consistent_add q key h
  | AddAfter key => exact h
  | AddRateLimited key => exact h
  | Forget key => exact h
  | Elapse key =>
    simp only [WorkQueue.step]
    split
    · exact consistent_add _ key h
    · exact h
  | Get =>
    obtain ⟨hq, hd, hp, hqd, hdq⟩ := h
    simp only [WorkQueue.step]
    split
    · exact ⟨hq, hd, hp, hqd, hdq⟩
    · next key rest hqueue =>
      rw [hqueue] at hq hqd hdq
      have hkr : key ∉ rest := (List.nodup_cons.1 hq).1
      refine ⟨(List.nodup_cons.1 hq).2, hd.erase key, ?_, ?_, ?_⟩
      · exact List.nodup_cons.2 ⟨(hqd key (List.mem_cons_self _ _)).2, hp⟩
      · intro k hk
        have hne : k ≠ key := fun e => hkr (e ▸ hk)
        have := hqd k (List.mem_cons_of_mem _ hk)
        refine ⟨(hd.mem_erase_iff).2 ⟨hne, this.1⟩, ?_⟩
        intro hmem
        rcases List.mem_cons.1 hmem with e | hmem
        · exact hne e
        · exact this.2 hmem
      · intro k hk hkp
        have hk' := (hd.mem_erase_iff).1 hk
        have hnp : k ∉ q.processing := fun hm => hkp (List.mem_cons_of_mem _ hm)
        rcases List.mem_cons.1 (hdq k hk'.2 hnp) with e | hmem
        · exact absurd e hk'.1
        · exact hmem
  | Done key =>
    obtain ⟨hq, hd, hp, hqd, hdq⟩ := h
    simp only [WorkQueue.step]
    split
    · next hproc =>
      have hnq : key ∉ q.queue := fun hk => (hqd key hk).2 hproc
      split
      · next hdirty =>
        refine ⟨?_, hd, hp.erase key, ?_, ?_⟩
        · exact List.nodup_append.2 ⟨hq, List.nodup_singleton _, by
            intro a ha hb
            rw [List.mem_singleton] at hb
            exact hnq (hb ▸ ha)⟩
        · intro k hk
          rcases List.mem_append.1 hk with hk | hk
          · exact ⟨(hqd k hk).1, fun hm => (hqd k hk).2 (List.mem_of_mem_erase hm)⟩
          · rw [List.mem_singleton] at hk
            subst hk
            exact ⟨hdirty, fun hm => ((hp.mem_erase_iff).1 hm).1 rfl⟩
        · intro k hk hkp
          by_cases e : k = key
          · exact List.mem_append.2 (Or.inr (List.mem_singleton.2 e))
          · exact List.mem_append.2
              (Or.inl (hdq k hk (fun hm => hkp ((hp.mem_erase_iff).2 ⟨e, hm⟩))))
      · next hdirty =>
        refine ⟨hq, hd, hp.erase key, ?_, ?_⟩
        · intro k hk
          exact ⟨(hqd k hk).1, fun hm => (hqd k hk).2 (List.mem_of_mem_erase hm)⟩
        · intro k hk hkp
          have e : k ≠ key := fun e => hdirty (e ▸ hk)
          exact hdq k hk (fun hm => hkp ((hp.mem_erase_iff).2 ⟨e, hm⟩))
    · exact ⟨hq, hd, hp, hqd, hdq⟩

theorem consistent_run (ops : List QueueOp) (q : WorkQueue) (h : q.Consistent) :
    (q.run ops).Consistent := by
  induction ops generalizing q with
  | nil => exact h
  | cons op ops ih => exact ih _ (consistent_step q op h)

theorem run_append (q : WorkQueue) (a b : List QueueOp) :
    q.run (a ++ b) = (q.run a).run b := by
  induction a generalizing q with
  | nil => rfl
  | cons op a ih => exact ih _

theorem add_processing (q : WorkQueue) (k : String) : (q.add k).processing = q.processing := by
  unfold WorkQueue.add
  split
  · rfl
  · split <;> rfl

theorem add_started (q : WorkQueue) (k : String) : (q.add k).started = q.started := by
  unfold WorkQueue.add
  split
  · rfl
  · split <;> rfl

theorem add_dirty_self (q : WorkQueue) (k : String) : k ∈ (q.add k).dirty := by
  unfold WorkQueue.add
  split
  · assumption
  · split <;> exact List.mem_cons_self _ _

theorem add_dirty_mem (q : WorkQueue) (k key : String) :
    key ∈ (q.add k).dirty ↔ key = k ∨ key ∈ q.dirty := by
  unfold WorkQueue.add
  split
  · next h =>
    constructor
    · exact Or.inr
    · rintro (rfl | h')
      · exact h
      · exact h'
  · split <;> exact List.mem_cons

/-- While a key is in flight and its `Done` has not come, it stays in
flight, it stays pending once it is pending, and no invocation of
`syncHandler` starts for it. -/
theorem inflight_step (q : WorkQueue) (key : String) (op : QueueOp) (h : q.Consistent)
    (hp : key ∈ q.processing) (hop : op ≠ .Done key) :
    key ∈ (q.step op).processing ∧ (key ∈ q.dirty → key ∈ (q.step op).dirty) ∧
    (q.step op).started.count key = q.started.count key := by
  cases op with
  | Add k =>
    change key ∈ (q.add k).processing ∧ (key ∈ q.dirty → key ∈ (q.add k).dirty) ∧
      (q.add k).started.count key = q.started.count key
    rw [add_processing, add_started]
    exact ⟨hp, fun hd => (add_dirty_mem q k key).2 (Or.inr hd), rfl⟩
  | AddAfter k => exact ⟨hp, id, rfl⟩
  | AddRateLimited k => exact ⟨hp, id, rfl⟩
  | Forget k => exact ⟨hp, id, rfl⟩
  | Elapse k =>
    simp only [WorkQueue.step]
    split
    · rw [add_processing, add_started]
      exact ⟨hp, fun hd => (add_dirty_mem _ k key).2 (Or.inr hd), rfl⟩
    · exact ⟨hp, id, rfl⟩
  | Get =>
    simp only [WorkQueue.step]
    split
    · exact ⟨hp, id, rfl⟩
    · next k rest hqueue =>
      have hk : k ∈ q.queue := by rw [hqueue]; exact List.mem_cons_self _ _
      have hne : key ≠ k := fun e => (h.2.2.2.1 k hk).2 (e ▸ hp)
      refine ⟨List.mem_cons_of_mem _ hp, fun hd => (h.2.1.mem_erase_iff).2 ⟨hne, hd⟩, ?_⟩
      simp [List.count_append, List.count_cons, Ne.symm hne]
  | Done k =>
    have hne : key ≠ k := fun e => hop (e ▸ rfl)
    simp only [WorkQueue.step]
    split
    · split
      · exact ⟨(List.mem_erase_of_ne hne).2 hp, id, rfl⟩
      · exact ⟨(List.mem_erase_of_ne hne).2 hp, id, rfl⟩
    · exact ⟨hp, id, rfl⟩

theorem inflight_run (ops : List QueueOp) (q : WorkQueue) (key : String) (h : q.Consistent)
    (hp : key ∈ q.processing) (hops : QueueOp.Done key ∉ ops) :
    key ∈ (q.run ops).processing ∧ (key ∈ q.dirty → key ∈ (q.run ops).dirty) ∧
    (q.run ops).started.count key = q.started.count key := by
  induction ops generalizing q with
  | nil => exact ⟨hp, id, rfl⟩
  | cons op ops ih =>
    have hop : op ≠ .Done key := fun e => hops (e ▸ List.mem_cons_self _ _)
    have hs := inflight_step q key op h hp hop
    have hr := ih (q.step op) (consistent_step q op h) hs.1
      (fun hm => hops (List.mem_cons_of_mem _ hm))
    exact ⟨hr.1, fun hd => hr.2.1 (hs.2.1 hd), hr.2.2.trans hs.2.2⟩

/-- At the `Done` of a key in flight that is pending, the key joins the
order, once, and is no longer in flight. -/
theorem done_requeues (q : WorkQueue) (key : String) (h : q.Consistent)
    (hp : key ∈ q.processing) (hd : key ∈ q.dirty) :
    (q.step (.Done key)).queue.count key = 1 ∧ key ∉ (q.step (.Done key)).processing ∧
    (q.step (.Done key)).started = q.started := by
  have hnq : key ∉ q.queue := fun hk => (h.2.2.2.1 key hk).2 hp
  have hstep : q.step (.Done key) =
      { q with processing := q.processing.erase key, queue := q.queue ++ [key] } := by
    simp only [WorkQueue.step, hp, hd, if_true]
  rw [hstep]
  refine ⟨?_, fun hm => ((h.2.2.1.mem_erase_iff).1 hm).1 rfl, rfl⟩
  simp [List.count_append, List.count_eq_zero_of_not_mem hnq]

/-- An operation that does not insert a key cannot raise the number of
invocations started for it plus one if it is pending. -/
theorem pending_step (q : WorkQueue) (key : String) (op : QueueOp) (h : q.Consistent)
    (hop : op.inserts key = false) :
    (q.step op).started.count key + (if key ∈ (q.step op).dirty then 1 else 0) ≤
      q.started.count key + (if key ∈ q.dirty then 1 else 0) := by
  cases op with
  | Add k =>
    have hne : key ≠ k := by
      intro e
      simp [QueueOp.inserts, e] at hop
    change (q.add k).started.count key + (if key ∈ (q.add k).dirty then 1 else 0) ≤ _
    simp only [add_started, add_dirty_mem, hne, false_or]
    exact le_refl _
  | AddAfter k => exact le_refl _
  | AddRateLimited k => exact le_refl _
  | Forget k => exact le_refl _
  | Elapse k =>
    have hne : key ≠ k := by
      intro e
      simp [QueueOp.inserts, e] at hop
    simp only [WorkQueue.step]
    split
    · simp only [add_started, add_dirty_mem, hne, false_or]
      exact le_refl _
    · exact le_refl _
  | Get =>
    cases hqueue : q.queue with
    | nil =>
      have : q.step .Get = q := by simp only [WorkQueue.step, hqueue]
      rw [this]
    | cons k rest =>
      have hstep : q.step .Get =
          { q with queue := rest, dirty := q.dirty.erase k, processing := k :: q.processing,
                   started := q.started ++ [k] } := by
        simp only [WorkQueue.step, hqueue]
      rw [hstep]
      have hk : k ∈ q.queue := by rw [hqueue]; exact List.mem_cons_self _ _
      by_cases e : key = k
      · subst e
        have h1 : key ∈ q.dirty := (h.2.2.2.1 key hk).1
        have h2 : key ∉ q.dirty.erase key := fun hm => ((h.2.1.mem_erase_iff).1 hm).1 rfl
        simp [List.count_append, h1, h2]
      · have h2 : key ∈ q.dirty.erase k ↔ key ∈ q.dirty :=
          ⟨List.mem_of_mem_erase, fun hm => (List.mem_erase_of_ne e).2 hm⟩
        simp [List.count_append, List.count_cons, Ne.symm e, h2]
  | Done k =>
    simp only [WorkQueue.step]
    split
    · split <;> exact le_refl _
    · exact le_refl _

theorem pending_run (ops : List QueueOp) (q : WorkQueue) (key : String) (h : q.Consistent)
    (hops : ∀ op ∈ ops, op.inserts key = false) :
    (q.run ops).started.count key + (if key ∈ (q.run ops).dirty then 1 else 0) ≤
      q.started.count key + (if key ∈ q.dirty then 1 else 0) := by
  induction ops generalizing q with
  | nil => exact le_refl _
  | cons op ops ih =>
    exact le_trans
      (ih (q.step op) (consistent_step q op h) (fun o ho => hops o (List.mem_cons_of_mem _ ho)))
      (pending_step q key op h (hops op (List.mem_cons_self _ _)))

/-- Workers that call `Get` as many times as there are keys in the order
start one invocation for each of them, in that order. -/
theorem drain_started (n : Nat) (q : WorkQueue) (hn : q.queue.length = n) :
    (q.run (List.replicate n .Get)).started = q.started ++ q.queue := by
  induction n generalizing q with
  | zero =>
    have : q.queue = [] := List.length_eq_zero.1 hn
    simp [WorkQueue.run, this]
  | succ n ih =>
    cases hq : q.queue with
    | nil => rw [hq] at hn; simp at hn
    | cons k rest =>
      rw [hq] at hn
      have hstep : q.step .Get =
          { q with queue := rest, dirty := q.dirty.erase k, processing := k :: q.processing,
                   started := q.started ++ [k] } := by
        simp [WorkQueue.step, hq]
      simp only [List.replicate_succ, WorkQueue.run]
      rw [ih (q.step .Get) (by rw [hstep]; simpa using hn), hstep]
      simp

/-- C10 (amended), on the work queue as the specification describes it: in
every interleaving of queue operations no key is in flight twice and `Get`
never hands out a key that is in flight, so no two invocations of
`syncHandler` for one key overlap.  For a key in flight, the insertions that
take effect before its `Done` (immediate `Add`s, and insertions scheduled by
`AddAfter` or `AddRateLimited` whose delay elapses before the `Done`),
however many there are, start no invocation while the key is in flight and
leave the key in the order exactly once at its `Done`; from there at most
one invocation for the key starts as long as no further insertion of it
takes effect, and exactly one once the workers have called `Get` for every
key in the order. -/
theorem workqueue_one_reconcile_per_key (q : WorkQueue) (pre post : List QueueOp)
    (ins : QueueOp) (key : String)
    (hq : q.Consistent)
    (hflight : key ∈ q.processing)
    (hins : ins = .Add key ∨ (ins = .Elapse key ∧ key ∈ (q.run pre).timers))
    (hnodone : QueueOp.Done key ∉ pre ++ ins :: post) :
    (∀ ops : List QueueOp, (WorkQueue.empty.run ops).Consistent ∧
      (WorkQueue.empty.run ops).processing.Nodup ∧
      ∀ k, (WorkQueue.empty.run ops).queue.head? = some k →
        k ∉ (WorkQueue.empty.run ops).processing) ∧
    (q.run (pre ++ ins :: post)).started.count key = q.started.count key ∧
    (q.run (pre ++ ins :: post ++ [.Done key])).queue.count key = 1 ∧
    key ∉ (q.run (pre ++ ins :: post ++ [.Done key])).processing ∧
    (q.run (pre ++ ins :: post ++ [.Done key])).started.count key = q.started.count key ∧
    (∀ ops : List QueueOp, (∀ op ∈ ops, op.inserts key = false) →
      ((q.run (pre ++ ins :: post ++ [.Done key])).run ops).started.count key ≤
        q.started.count key + 1) ∧
    ((q.run (pre ++ ins :: post ++ [.Done key])).run
        (List.replicate (q.run (pre ++ ins :: post ++ [.Done key])).queue.length
          .Get)).started.count key =
      q.started.count key + 1 := by
  have hpre : QueueOp.Done key ∉ pre := fun h => hnodone (List.mem_append.2 (Or.inl h))
  have hinsne : ins ≠ .Done key := fun h =>
    hnodone (List.mem_append.2 (Or.inr (h ▸ List.mem_cons_self _ _)))
  have hpost : QueueOp.Done key ∉ post := fun h =>
    hnodone (List.mem_append.2 (Or.inr (List.mem_cons_of_mem _ h)))
  -- the queue when the insertion takes effect
  have c1 := consistent_run pre q hq
  have f1 := inflight_run pre q key hq hflight hpre
  have c2 := consistent_step (q.run pre) ins c1
  have f2 := inflight_step (q.run pre) key ins c1 f1.1 hinsne
  have hdirty : key ∈ ((q.run pre).step ins).dirty := by
    rcases hins with rfl | ⟨rfl, ht⟩
    · exact add_dirty_self _ _
    · simp only [WorkQueue.step, ht, if_true]
      exact add_dirty_self _ _
  -- the queue at the `Done`
  have c3 := consistent_run post _ c2
  have f3 := inflight_run post _ key c2 f2.1 hpost
  have hrun : q.run (pre ++ ins :: post) = ((q.run pre).step ins).run post := by
    rw [run_append]
    rfl
  have hrun2 : q.run (pre ++ ins :: post ++ [.Done key]) =
      (((q.run pre).step ins).run post).step (.Done key) := by
    rw [run_append, hrun]
    rfl
  have hd := done_requeues _ key c3 f3.1 (f3.2.1 hdirty)
  have c4 := consistent_step _ (.Done key) c3
  have hcount : (q.run (pre ++ ins :: post)).started.count key = q.started.count key := by
    rw [hrun, f3.2.2, f2.2.2, f1.2.2]
  have hcount2 : (q.run (pre ++ ins :: post ++ [.Done key])).started.count key =
      q.started.count key := by
    rw [hrun2, hd.2.2, ← hrun, hcount]
  have hmemq : key ∈ (q.run (pre ++ ins :: post ++ [.Done key])).queue := by
    rw [hrun2]
    exact List.count_pos_iff.1 (by rw [hd.1]; exact Nat.one_pos)
  refine ⟨?_, hcount, by rw [hrun2]; exact hd.1, by rw [hrun2]; exact hd.2.1, hcount2, ?_, ?_⟩
  · intro ops
    have c := consistent_run ops _ consistent_empty
    refine ⟨c, c.2.2.1, ?_⟩
    intro k hk
    exact (c.2.2.2.1 k (List.mem_of_mem_head? hk)).2
  · intro ops hops
    rw [← hrun2] at c4
    have hb := pending_run ops _ key c4 hops
    have hdq : key ∈ (q.run (pre ++ ins :: post ++ [.Done key])).dirty :=
      (c4.2.2.2.1 key hmemq).1
    rw [if_pos hdq, hcount2] at hb
    exact le_trans (Nat.le_add_right _ _) hb
  · rw [drain_started _ _ rfl, List.count_append, hcount2, hrun2, hd.1]

/-- C10 at concrete inputs: the key `k` is in flight; `Add(k)` is called
twice and a rate-limited insertion of it elapses, all before its `Done`; at
the `Done` the key is in the order once, and the next `Get` starts the one
subsequent invocation. -/
theorem workqueue_one_reconcile_per_key_witness :
    (WorkQueue.empty.run
        [.Add "k", .Get, .AddRateLimited "k", .Add "k", .Add "k", .Elapse "k",
          .Done "k"]).queue = ["k"] ∧
    (WorkQueue.empty.run
        [.Add "k", .Get, .AddRateLimited "k", .Add "k", .Add "k", .Elapse "k", .Done "k",
          .Get]).started.count "k" = 1 + 1 :=
  have h := workqueue_one_reconcile_per_key (WorkQueue.empty.run [.Add "k", .Get])
    [.AddRateLimited "k"] [.Add "k", .Elapse "k"] (.Add "k") "k"
    (consistent_run _ _ consistent_empty) (by decide) (Or.inl rfl) (by decide)
  ⟨by decide, h.2.2.2.2.2.2⟩

/-- C10, as stated, fails for delayed insertions: while `k` is in flight
`AddAfter(k, _)` and `AddRateLimited(k)` are called, two calls; the delay of
the first elapses after the `Done` and the key is reconciled; the delay of
the second elapses after that, and the key is reconciled again.  The two
calls result in two subsequent invocations, not in one.  The same holds for
one `Add(k)` and one `AddAfter(k, _)` called in flight. -/
theorem workqueue_one_reconcile_per_key_counterexample :
    (WorkQueue.empty.run [.Add "k", .Get]).processing = ["k"] ∧
    (WorkQueue.empty.run [.Add "k", .Get]).started = ["k"] ∧
    (WorkQueue.empty.run
        [.Add "k", .Get, .AddAfter "k", .AddRateLimited "k", .Done "k",
          .Elapse "k", .Get, .Done "k", .Elapse "k", .Get, .Done "k"]).started =
      ["k", "k", "k"] ∧
    (WorkQueue.empty.run
        [.Add "k", .Get, .Add "k", .AddAfter "k", .Done "k",
          .Get, .Done "k", .Elapse "k", .Get, .Done "k"]).started =
      ["k", "k", "k"] := by
  decide

end Cnat
